import Mathlib

/-!
Verification of `igl::readMESH` (readMESH.h): a single-pass parser for the
Medit ".mesh" ASCII format, producing vertex rows `V`, tetrahedron rows `T`
and face rows `F`, plus the Eigen overload that converts the three
row-lists to rectangular matrices via `igl::list_to_matrix`.

The C code is shallowly embedded over the file contents as a `List Char`.
The C standard-library calls used by the source (`fgets`, `sscanf " %s"`,
`sscanf "%s %d"`, `fscanf " %d"`, `fscanf " %ld"`, `fscanf " %lg"`) are
modelled as explicit functions on character lists.  Machine integers are
modelled as unbounded `Int`/`Nat` with an explicit `% 2^64` at the points
where the source stores a scanned value into a `size_t`.  Coordinate
scalars (read with `%lg` into `double`) are modelled exactly as rationals
over the decimal forms of the `%lg` grammar; IEEE rounding of the double
pipeline is outside the scope of the claims treated here.

Each failing `return false` of the source is modelled as a `ParseResult.fail`
carrying the information printed by the source at that site, together with a
Boolean recording whether `fclose` was executed before the `return`.  The
comment-eating loops of the source share one persistent `line` buffer and
re-test it unchanged when `fgets` hits end-of-file: the loop then spins
forever if the stale line is blank or a comment (the model returns
`ParseResult.diverge` exactly in that situation), and otherwise exits with
the stale line, which the caller re-tokenizes; the model threads the buffer
through the stages to capture both outcomes.
-/

/-- Characters of a string literal, used to write concrete file contents. -/
def chars (s : String) : List Char := s.data

/-- C `isspace` in the default locale: space, tab, newline, vertical tab,
form feed, carriage return. -/
def isSpaceC (c : Char) : Bool :=
  c == ' ' || c == '\t' || c == '\n' || c == '\x0b' || c == '\x0c' || c == '\r'

/-- Value of a big-endian list of decimal digit characters, as accumulated by
the C `%d`/`%ld` conversions. -/
def digitsVal (ds : List Char) : Nat :=
  ds.foldl (fun a c => a * 10 + (c.toNat - 48)) 0

/-- Model of the character-consuming part of `fgets(line, 2048, f)`: read at
most `fuel` characters (the C call passes size 2048 and hence reads at most
2047), stopping after the first newline.  Returns the line read and the rest
of the input. -/
def fgetsTake (fuel : Nat) : List Char → (List Char × List Char)
  | [] => ([], [])
  | c :: s =>
    if fuel = 0 then ([], c :: s)
    else if c = '\n' then (['\n'], s)
    else
      let p := fgetsTake (fuel - 1) s
      (c :: p.1, p.2)

/-- Model of `fgets(line, LINE_MAX, mesh_file)` with `LINE_MAX = 2048`
(readMESH.h lines 60-63, 73): `none` when the stream is at end-of-file and
nothing is read (the C call then returns NULL and leaves the buffer
unchanged). -/
def fgets (s : List Char) : Option (List Char × List Char) :=
  match s with
  | [] => none
  | c :: s' => some (fgetsTake 2047 (c :: s'))

/-- The loop condition of the comment-eating loops:
`line[0] == '#' || line[0] == '\n'` (readMESH.h line 74). -/
def isCommentStart (l : List Char) : Bool :=
  match l with
  | [] => false
  | c :: _ => c == '#' || c == '\n'

/-- Fuel-indexed helper for `eatComments`; the fuel only serves to make the
recursion structural and is irrelevant as long as it exceeds the length of
the input (each successful `fgets` consumes at least one character).  `buf`
is the current content of the persistent `line` buffer of the source, which
an `fgets` that hits end-of-file leaves unchanged. -/
def eatCommentsAux : Nat → List Char → List Char → Option (List Char × List Char)
  | 0, _, _ => none
  | fuel + 1, buf, s =>
    match fgets s with
    | none => if isCommentStart buf then none else some (buf, [])
    | some (line, rest) =>
      if isCommentStart line then eatCommentsAux fuel line rest else some (line, rest)

/-- Model of the comment-eating loops of the source (readMESH.h lines 69-75,
100-106, 129-135, 169-175, 209-215):

```
still_comments = true;
while(still_comments)
{
  fgets(line,LINE_MAX,mesh_file);
  still_comments = (line[0] == '#' || line[0] == '\n');
}
```

The `char line[LINE_MAX]` buffer is a single variable shared by all five
loops and is left unchanged by an `fgets` that hits end-of-file
(C11 7.21.7.2).  So when the input runs out during a loop, the loop's
behaviour depends on the stale buffer `buf`: if it holds a blank or comment
line the condition stays true and the loop spins forever (the model returns
`none` exactly for that infinite loop); otherwise the loop exits with the
stale line still in the buffer and the caller goes on to re-tokenize it
(the model returns `some (buf, [])`).  On entry to each loop after the
first, `buf` is the keyword line with which the previous loop exited; for
the first loop the buffer is uninitialized stack memory, which only matters
for the empty input, where the model picks the empty buffer. -/
def eatComments (buf s : List Char) : Option (List Char × List Char) :=
  eatCommentsAux (s.length + 1) buf s

/-- Model of `sscanf(line, " %s", str)` (readMESH.h lines 78, 108, 137, 177,
217): the first whitespace-delimited token of the line, or `none` when the
line holds no token (the C call then fails and leaves `str` stale). -/
def firstToken (l : List Char) : Option (List Char) :=
  let t := (l.dropWhile isSpaceC).takeWhile (fun c => !isSpaceC c)
  if t = [] then none else some t

/-- The optional-sign step shared by the numeric conversions: consume a
leading `+` or `-` and report the sign. -/
def signSplit (s : List Char) : Int × List Char :=
  match s with
  | '+' :: r => (1, r)
  | '-' :: r => (-1, r)
  | _ => (1, s)

/-- Model of the C `%d`/`%ld` conversion applied to a character stream: skip
whitespace, then an optional sign followed by at least one decimal digit.
Returns the (unbounded) integer value and the rest of the stream, or `none`
on a matching failure. -/
def scanIntCore (s : List Char) : Option (Int × List Char) :=
  let p := signSplit (s.dropWhile isSpaceC)
  let ds := p.2.takeWhile Char.isDigit
  if ds = [] then none else some (p.1 * (digitsVal ds : Int), p.2.drop ds.length)

/-- Model of the same-line value extraction `sscanf(line, "%s %d", str, &v)`
(readMESH.h lines 88, 117): the token is re-read from the line and the `%d`
conversion is attempted on the remainder of the line; `some v` corresponds to
the C call returning 2. -/
def sameLineInt (line : List Char) : Option Int :=
  match firstToken line with
  | none => none
  | some t =>
    match scanIntCore ((line.dropWhile isSpaceC).drop t.length) with
    | none => none
    | some (v, _) => some v

/-- Model of the keyword-value idiom of the source (readMESH.h lines 87-92 and
116-121): initialize the value to `-1`, try the same-line extraction
`sscanf(line, "%s %d", ...)` first, and only if it does not convert both
fields fall back to `fscanf(mesh_file, " %d", &v)` on the stream; when the
fallback also fails to match, the value keeps its initialization `-1`. -/
def keywordValue (line s : List Char) : Int × List Char :=
  match sameLineInt line with
  | some v => (v, s)
  | none =>
    match scanIntCore s with
    | some (v, s') => (v, s')
    | none => (-1, s)

/-- Conversion of a scanned `%ld` value when it is stored into a `size_t`
variable of the source (`number_of_vertices`, `tri[j]`, `a` .. `d`, ...):
the value modulo `2^64`. -/
def toSizeT (v : Int) : Nat := (v % (2 ^ 64 : Int)).toNat

/-- The `size_t` subtraction `k - 1` performed by the index rebasing
`F[i][j] = tri[j]-1` and `T[i][0] = a-1` ... (readMESH.h lines 205, 244-247),
including the wrap-around at `k = 0`. -/
def sizeSub1 (k : Nat) : Nat := (k + (2 ^ 64 - 1)) % 2 ^ 64

/-- The rational value denoted by a scanned decimal float: mantissa `m`,
`flen` fractional digits, decimal exponent `e`. -/
def ratVal (m : Int) (flen : Nat) (e : Int) : Rat :=
  let base : Rat := (m : Rat) / (10 : Rat) ^ flen
  if 0 ≤ e then base * (10 : Rat) ^ e.toNat else base / (10 : Rat) ^ (-e).toNat

/-- Exponent part of the `%lg` conversion, after the `e`/`E` marker: optional
sign, then at least one digit. -/
def scanFloatExp (m : Int) (flen : Nat) (r : List Char) :
    Option (Rat × List Char) :=
  let p := signSplit r
  let ed := p.2.takeWhile Char.isDigit
  if ed = [] then none
  else some (ratVal m flen (p.1 * (digitsVal ed : Int)), p.2.drop ed.length)

/-- The optional fractional part of the `%lg` conversion: a dot followed by a
(possibly empty) digit run. -/
def fracSplit (s : List Char) : List Char × List Char :=
  match s with
  | '.' :: r => (r.takeWhile Char.isDigit, r.drop (r.takeWhile Char.isDigit).length)
  | _ => ([], s)

/-- The optional exponent part of the `%lg` conversion. -/
def expSplit (m : Int) (flen : Nat) (s : List Char) : Option (Rat × List Char) :=
  match s with
  | 'e' :: r => scanFloatExp m flen r
  | 'E' :: r => scanFloatExp m flen r
  | _ => some (ratVal m flen 0, s)

/-- Model of the C `%lg` conversion on the decimal grammar: whitespace, an
optional sign, digits with an optional fractional part (at least one digit
overall), and an optional exponent.  The value is exact (a rational); the
claims treated here never depend on IEEE rounding of the double result. -/
def scanFloat (s : List Char) : Option (Rat × List Char) :=
  let p := signSplit (s.dropWhile isSpaceC)
  let ip := p.2.takeWhile Char.isDigit
  let q := fracSplit (p.2.drop ip.length)
  if ip = [] ∧ q.1 = [] then none
  else expSplit (p.1 * (digitsVal (ip ++ q.1) : Int)) q.1.length q.2

/-- Model of `fscanf(mesh_file, " %lg %lg %lg %ld", &x, &y, &z, &extra)`
(readMESH.h line 158): three doubles and the discarded trailing reference
id; `some` corresponds to the C call returning 4. -/
def scanVertex (s : List Char) : Option ((Rat × Rat × Rat) × List Char) := do
  let (x, s1) ← scanFloat s
  let (y, s2) ← scanFloat s1
  let (z, s3) ← scanFloat s2
  let (_e, s4) ← scanIntCore s3
  pure ((x, y, z), s4)

/-- Model of `fscanf(mesh_file, " %ld %ld %ld %ld", &tri[0], &tri[1], &tri[2],
&extra)` (readMESH.h line 198): three indices stored into `size_t` slots and
the discarded trailing reference id; `some` corresponds to the C call
returning 4. -/
def scanTriangle (s : List Char) : Option ((Nat × Nat × Nat) × List Char) := do
  let (a, s1) ← scanIntCore s
  let (b, s2) ← scanIntCore s1
  let (c, s3) ← scanIntCore s2
  let (_e, s4) ← scanIntCore s3
  pure ((toSizeT a, toSizeT b, toSizeT c), s4)

/-- Model of `fscanf(mesh_file, " %ld %ld %ld %ld %ld", &a, &b, &c, &d,
&extra)` (readMESH.h line 238): four indices stored into `size_t` variables
and the discarded trailing reference id; `some` corresponds to the C call
returning 5. -/
def scanTet (s : List Char) : Option ((Nat × Nat × Nat × Nat) × List Char) := do
  let (a, s1) ← scanIntCore s
  let (b, s2) ← scanIntCore s1
  let (c, s3) ← scanIntCore s2
  let (d, s4) ← scanIntCore s3
  let (_e, s5) ← scanIntCore s4
  pure ((toSizeT a, toSizeT b, toSizeT c, toSizeT d), s5)

/-- The distinct failure sites of `igl::readMESH`, each identified by the
diagnostic the source prints there together with the data interpolated into
the message.  The `found` argument of the keyword mismatches is `none` when
the token extraction itself failed and the source would print a stale
buffer. -/
inductive ParseErr where
  | notMeshVersionFormatted (found : Option (List Char))
  | badVersion (found : Int)
  | notDimension (found : Option (List Char))
  | badDimension (found : Int)
  | notVertices (found : Option (List Char))
  | expectingVertexCount
  | expectingVertexPosition
  | notTriangles (found : Option (List Char))
  | expectingTriangleCount
  | expectingTriangleIndices
  | notTetrahedra (found : Option (List Char))
  | expectingTetCount
  | expectingTetIndices
deriving DecidableEq

/-- Outcome of a call to the generic `igl::readMESH` on an opened file.
`ok V T F` is the `return true` at line 250 (the file was closed at line
249); `fail e closed` is a `return false` at the failure site `e`, with
`closed` recording whether `fclose(mesh_file)` was executed on that path;
`diverge` is the infinite comment-eating loop at end-of-file. -/
inductive ParseResult where
  | ok (V : List (List Rat)) (T : List (List Nat)) (F : List (List Nat))
  | fail (e : ParseErr) (closed : Bool)
  | diverge
deriving DecidableEq

/-- Lines 69-98 of readMESH.h: eat comments, check the first word is
`MeshVersionFormatted`, read the associated value (same line first, stream
fallback), require it to be `1`.  `buf` is the line-buffer content on entry;
on success the line with which the comment loop exited is returned alongside
the remaining stream, since the buffer keeps holding it. -/
def versionStage (buf s : List Char) : Sum ParseResult (List Char × List Char) :=
  match eatComments buf s with
  | none => .inl .diverge
  | some (line, s1) =>
    match firstToken line with
    | none => .inl (.fail (.notMeshVersionFormatted none) true)
    | some t =>
      if t = chars "MeshVersionFormatted" then
        let p := keywordValue line s1
        if p.1 = 1 then .inr (line, p.2) else .inl (.fail (.badVersion p.1) true)
      else .inl (.fail (.notMeshVersionFormatted (some t)) true)

/-- Lines 100-127 of readMESH.h: eat comments, check the keyword `Dimension`,
read the associated value, require it to be `3`. -/
def dimensionStage (buf s : List Char) : Sum ParseResult (List Char × List Char) :=
  match eatComments buf s with
  | none => .inl .diverge
  | some (line, s1) =>
    match firstToken line with
    | none => .inl (.fail (.notDimension none) true)
    | some t =>
      if t = chars "Dimension" then
        let p := keywordValue line s1
        if p.1 = 3 then .inr (line, p.2) else .inl (.fail (.badDimension p.1) true)
      else .inl (.fail (.notDimension (some t)) true)

/-- Lines 129-151 of readMESH.h: eat comments, check the keyword `Vertices`,
then `fscanf(mesh_file, " %ld", &number_of_vertices)` into a `size_t`. -/
def verticesHeaderStage (buf s : List Char) : Sum ParseResult (List Char × Nat × List Char) :=
  match eatComments buf s with
  | none => .inl .diverge
  | some (line, s1) =>
    match firstToken line with
    | none => .inl (.fail (.notVertices none) true)
    | some t =>
      if t = chars "Vertices" then
        match scanIntCore s1 with
        | some (v, s2) => .inr (line, toSizeT v, s2)
        | none => .inl (.fail .expectingVertexCount true)
      else .inl (.fail (.notVertices (some t)) true)

/-- Lines 169-191 of readMESH.h: eat comments, check the keyword `Triangles`,
then read `number_of_triangles`. -/
def trianglesHeaderStage (buf s : List Char) : Sum ParseResult (List Char × Nat × List Char) :=
  match eatComments buf s with
  | none => .inl .diverge
  | some (line, s1) =>
    match firstToken line with
    | none => .inl (.fail (.notTriangles none) true)
    | some t =>
      if t = chars "Triangles" then
        match scanIntCore s1 with
        | some (v, s2) => .inr (line, toSizeT v, s2)
        | none => .inl (.fail .expectingTriangleCount true)
      else .inl (.fail (.notTriangles (some t)) true)

/-- Lines 209-231 of readMESH.h: eat comments, check the keyword `Tetrahedra`,
then read `number_of_tetrahedra`. -/
def tetrahedraHeaderStage (buf s : List Char) : Sum ParseResult (List Char × Nat × List Char) :=
  match eatComments buf s with
  | none => .inl .diverge
  | some (line, s1) =>
    match firstToken line with
    | none => .inl (.fail (.notTetrahedra none) true)
    | some t =>
      if t = chars "Tetrahedra" then
        match scanIntCore s1 with
        | some (v, s2) => .inr (line, toSizeT v, s2)
        | none => .inl (.fail .expectingTetCount true)
      else .inl (.fail (.notTetrahedra (some t)) true)

/-- Lines 155-167 of readMESH.h: the vertex-record loop.  On a record that
does not yield 4 conversions the source prints its diagnostic, closes the
file and returns false. -/
def readVertexLoop : Nat → List Char → List (List Rat) →
    Sum ParseResult (List (List Rat) × List Char)
  | 0, s, acc => .inr (acc, s)
  | n + 1, s, acc =>
    match scanVertex s with
    | none => .inl (.fail .expectingVertexPosition true)
    | some (v, s') => readVertexLoop n s' (acc ++ [[v.1, v.2.1, v.2.2]])

/-- Lines 196-207 of readMESH.h: the triangle-record loop with the 1-based to
0-based rebasing `F[i][j] = tri[j]-1`.  Note that on a malformed record this
branch of the source returns false without calling `fclose` (lines 198-202),
unlike every other failure branch; the `closed` flag is `false` here. -/
def readTriangleLoop : Nat → List Char → List (List Nat) →
    Sum ParseResult (List (List Nat) × List Char)
  | 0, s, acc => .inr (acc, s)
  | n + 1, s, acc =>
    match scanTriangle s with
    | none => .inl (.fail .expectingTriangleIndices false)
    | some (v, s') =>
      readTriangleLoop n s' (acc ++ [[sizeSub1 v.1, sizeSub1 v.2.1, sizeSub1 v.2.2]])

/-- Lines 236-248 of readMESH.h: the tetrahedron-record loop with the
rebasing `T[i][0] = a-1` ... `T[i][3] = d-1`. -/
def readTetLoop : Nat → List Char → List (List Nat) →
    Sum ParseResult (List (List Nat) × List Char)
  | 0, s, acc => .inr (acc, s)
  | n + 1, s, acc =>
    match scanTet s with
    | none => .inl (.fail .expectingTetIndices true)
    | some (v, s') =>
      readTetLoop n s' (acc ++ [[sizeSub1 v.1, sizeSub1 v.2.1, sizeSub1 v.2.2.1, sizeSub1 v.2.2.2]])

/-- The generic `igl::readMESH` (readMESH.h lines 45-251) on the contents of
a successfully opened file: the sequential composition of the seven stages
above, returning `V`, `T`, `F` on success. -/
def parseMESH (s : List Char) : ParseResult :=
  match versionStage [] s with
  | .inl r => r
  | .inr (l1, s1) =>
    match dimensionStage l1 s1 with
    | .inl r => r
    | .inr (l2, s2) =>
      match verticesHeaderStage l2 s2 with
      | .inl r => r
      | .inr (l3, nv, s3) =>
        match readVertexLoop nv s3 [] with
        | .inl r => r
        | .inr (V, s4) =>
          match trianglesHeaderStage l3 s4 with
          | .inl r => r
          | .inr (l4, nt, s5) =>
            match readTriangleLoop nt s5 [] with
            | .inl r => r
            | .inr (F, s6) =>
              match tetrahedraHeaderStage l4 s6 with
              | .inl r => r
              | .inr (_l5, nk, s7) =>
                match readTetLoop nk s7 [] with
                | .inl r => r
                | .inr (T, _s8) => .ok V T F

/-- The three section counts scanned by a run of the parser (the values of
`number_of_vertices`, `number_of_triangles`, `number_of_tetrahedra`), read
off from the same stage functions that `parseMESH` is composed of; `none`
when the run never reaches the respective `fscanf`. -/
def declaredCounts (s : List Char) : Option (Nat × Nat × Nat) :=
  match versionStage [] s with
  | .inl _ => none
  | .inr (l1, s1) =>
    match dimensionStage l1 s1 with
    | .inl _ => none
    | .inr (l2, s2) =>
      match verticesHeaderStage l2 s2 with
      | .inl _ => none
      | .inr (l3, nv, s3) =>
        match readVertexLoop nv s3 [] with
        | .inl _ => none
        | .inr (_, s4) =>
          match trianglesHeaderStage l3 s4 with
          | .inl _ => none
          | .inr (l4, nt, s5) =>
            match readTriangleLoop nt s5 [] with
            | .inl _ => none
            | .inr (_, s6) =>
              match tetrahedraHeaderStage l4 s6 with
              | .inl _ => none
              | .inr (_l5, nk, _) => some (nv, nt, nk)

/-- Modelled from the spec: `igl::list_to_matrix` (its header
`list_to_matrix.h` is included by readMESH.h but is not part of the sources
here).  Per spec section 4.2 the adapter "verifies each inner sequence has
the exact expected fixed width" and "if any row's width differs, fails";
on success the rows are returned unchanged, in order. -/
def list_to_matrix {α : Type} (w : Nat) (rows : List (List α)) :
    Option (List (List α)) :=
  if rows.all (fun r => r.length == w) then some rows else none

/-- The conversion part of the Eigen overload of `igl::readMESH`
(readMESH.h lines 262-291): convert `V`, then `T`, then `F`, failing the
whole call on the first conversion that fails; a failure returns no matrix
triple at all. -/
def toRectangular (V : List (List Rat)) (T F : List (List Nat)) :
    Option (List (List Rat) × List (List Nat) × List (List Nat)) := do
  let Vm ← list_to_matrix 3 V
  let Tm ← list_to_matrix 4 T
  let Fm ← list_to_matrix 3 F
  pure (Vm, Tm, Fm)

/-- Fuel-indexed decimal rendering of a natural number (most significant
digit first); the fuel only makes the recursion structural. -/
def renderNatAux : Nat → Nat → List Char
  | 0, _ => []
  | fuel + 1, n =>
    if n = 0 then [] else renderNatAux fuel (n / 10) ++ [Char.ofNat (48 + n % 10)]

/-- Decimal rendering of a natural number, used to build concrete and
parameterized input files for the parser. -/
def renderNat (n : Nat) : List Char :=
  if n = 0 then ['0'] else renderNatAux n n

/-- Decimal rendering of an integer. -/
def renderInt (v : Int) : List Char :=
  if v < 0 then '-' :: renderNat v.natAbs else renderNat v.toNat

/-- A vertex record as written in a file: three integer coordinates and a
reference id. -/
def vertLine (r : Int × Int × Int × Nat) : List Char :=
  renderInt r.1 ++ ' ' :: renderInt r.2.1 ++ ' ' :: renderInt r.2.2.1 ++
    ' ' :: renderNat r.2.2.2 ++ ['\n']

/-- A triangle record as written in a file: three 1-based indices and a
reference id. -/
def triLine (r : Nat × Nat × Nat × Nat) : List Char :=
  renderNat r.1 ++ ' ' :: renderNat r.2.1 ++ ' ' :: renderNat r.2.2.1 ++
    ' ' :: renderNat r.2.2.2 ++ ['\n']

/-- A tetrahedron record as written in a file: four 1-based indices and a
reference id. -/
def tetLine (r : Nat × Nat × Nat × Nat × Nat) : List Char :=
  renderNat r.1 ++ ' ' :: renderNat r.2.1 ++ ' ' :: renderNat r.2.2.1 ++
    ' ' :: renderNat r.2.2.2.1 ++ ' ' :: renderNat r.2.2.2.2 ++ ['\n']

/-- The row the parser stores for a rendered vertex record. -/
def vertRow (r : Int × Int × Int × Nat) : List Rat :=
  [(r.1 : Rat), (r.2.1 : Rat), (r.2.2.1 : Rat)]

/-- The row the parser stores for a rendered triangle record: each scanned
index lands in a `size_t` and is decremented there. -/
def triRow (r : Nat × Nat × Nat × Nat) : List Nat :=
  [sizeSub1 (r.1 % 2 ^ 64), sizeSub1 (r.2.1 % 2 ^ 64), sizeSub1 (r.2.2.1 % 2 ^ 64)]

/-- The row the parser stores for a rendered tetrahedron record. -/
def tetRow (r : Nat × Nat × Nat × Nat × Nat) : List Nat :=
  [sizeSub1 (r.1 % 2 ^ 64), sizeSub1 (r.2.1 % 2 ^ 64), sizeSub1 (r.2.2.1 % 2 ^ 64),
    sizeSub1 (r.2.2.2.1 % 2 ^ 64)]

/-- A list entirely made of (C `isspace`) whitespace characters. -/
def WsRun (w : List Char) : Prop := ∀ c ∈ w, isSpaceC c = true

/-- A single line that the comment-eating loops skip: short enough for one
`fgets` call, terminated by a newline, and either starting with `#` or being
the bare newline of an empty line. -/
def CommentLine (l : List Char) : Prop :=
  l.length ≤ 2047 ∧ l ≠ [] ∧ l.getLast? = some '\n' ∧ '\n' ∉ l.dropLast ∧
    (l.head? = some '#' ∨ l = ['\n'])

instance (l : List Char) : Decidable (CommentLine l) := by
  unfold CommentLine
  infer_instance

/-- A (possibly empty) run of whole blank and `#`-comment lines. -/
def CommentBlock (g : List Char) : Prop :=
  ∃ ls : List (List Char), (∀ l ∈ ls, CommentLine l) ∧ g = ls.flatten

/-- The vertex-section body for records each preceded by a whitespace run
(empty in the plain rendering; blank lines in the insertion claims). -/
def vertBody (vs : List (List Char × (Int × Int × Int × Nat))) : List Char :=
  (vs.map fun p => p.1 ++ vertLine p.2).flatten

/-- The triangle-section body. -/
def triBody (fs : List (List Char × (Nat × Nat × Nat × Nat))) : List Char :=
  (fs.map fun p => p.1 ++ triLine p.2).flatten

/-- The tetrahedron-section body. -/
def tetBody (ks : List (List Char × (Nat × Nat × Nat × Nat × Nat))) : List Char :=
  (ks.map fun p => p.1 ++ tetLine p.2).flatten

/-- A well-formed `.mesh` file for the given records, with comment blocks
`g1` .. `g5` placed before the keyword lines and a whitespace run before
each record; counts are derived from the record lists. -/
def renderMeshG (g1 g2 g3 g4 g5 : List Char)
    (vs : List (List Char × (Int × Int × Int × Nat)))
    (fs : List (List Char × (Nat × Nat × Nat × Nat)))
    (ks : List (List Char × (Nat × Nat × Nat × Nat × Nat))) : List Char :=
  g1 ++ chars "MeshVersionFormatted 1\n" ++
    g2 ++ chars "Dimension 3\n" ++
    g3 ++ chars "Vertices\n" ++ renderNat vs.length ++ '\n' ::
    (vertBody vs ++ g4 ++ chars "Triangles\n" ++ renderNat fs.length ++ '\n' ::
      (triBody fs ++ g5 ++ chars "Tetrahedra\n" ++ renderNat ks.length ++ '\n' ::
        tetBody ks))

/-- A well-formed `.mesh` file with no comment lines and no extra blanks. -/
def renderMesh0 (vs : List (Int × Int × Int × Nat))
    (fs : List (Nat × Nat × Nat × Nat))
    (ks : List (Nat × Nat × Nat × Nat × Nat)) : List Char :=
  renderMeshG [] [] [] [] [] (vs.map fun r => ([], r)) (fs.map fun r => ([], r))
    (ks.map fun r => ([], r))

theorem dropWhile_append_all {p : Char → Bool} {w : List Char} (t : List Char)
    (hw : ∀ c ∈ w, p c = true) : (w ++ t).dropWhile p = t.dropWhile p := by
  induction w with
  | nil => rfl
  | cons c w ih =>
    have hc := hw c (List.mem_cons_self c w)
    simp only [List.cons_append, List.dropWhile_cons, hc, if_true]
    exact ih fun x hx => hw x (List.mem_cons_of_mem _ hx)

theorem dropWhile_blocked {p : Char → Bool} {t : List Char}
    (ht : ∀ c, t.head? = some c → p c = false) : t.dropWhile p = t := by
  cases t with
  | nil => rfl
  | cons c t' => simp [List.dropWhile_cons, ht c rfl]

theorem takeWhile_append_blocked {p : Char → Bool} {a t : List Char}
    (ha : ∀ c ∈ a, p c = true) (ht : ∀ c, t.head? = some c → p c = false) :
    (a ++ t).takeWhile p = a := by
  induction a with
  | nil =>
    cases t with
    | nil => rfl
    | cons c t' => simp [List.takeWhile_cons, ht c rfl]
  | cons c a ih =>
    have hc := ha c (List.mem_cons_self c a)
    simp only [List.cons_append, List.takeWhile_cons, hc, if_true, List.cons.injEq, true_and]
    exact ih fun x hx => ha x (List.mem_cons_of_mem _ hx)

theorem signSplit_minus (t : List Char) : signSplit ('-' :: t) = (-1, t) := rfl

theorem signSplit_default {c : Char} (t : List Char) (h1 : c ≠ '+') (h2 : c ≠ '-') :
    signSplit (c :: t) = (1, c :: t) := by
  simp only [signSplit]
  split <;> simp_all

theorem fracSplit_blocked {t : List Char} (ht : ∀ c, t.head? = some c → c ≠ '.') :
    fracSplit t = ([], t) := by
  cases t with
  | nil => rfl
  | cons c t' =>
    simp only [fracSplit]
    split <;> simp_all

theorem expSplit_blocked {m : Int} {flen : Nat} {t : List Char}
    (ht : ∀ c, t.head? = some c → c ≠ 'e' ∧ c ≠ 'E') :
    expSplit m flen t = some (ratVal m flen 0, t) := by
  cases t with
  | nil => rfl
  | cons c t' =>
    simp only [expSplit]
    split <;> simp_all

/-- The digit characters emitted by the renderers, as an explicit image of
`Char.ofNat`. -/
def DigitsOnly (l : List Char) : Prop := ∀ c ∈ l, ∃ d, d < 10 ∧ c = Char.ofNat (48 + d)

theorem digitChar_isDigit {d : Nat} (h : d < 10) : (Char.ofNat (48 + d)).isDigit = true := by
  interval_cases d <;> decide

theorem digitChar_toNat {d : Nat} (h : d < 10) : (Char.ofNat (48 + d)).toNat - 48 = d := by
  interval_cases d <;> decide

theorem digitChar_props {d : Nat} (h : d < 10) :
    isSpaceC (Char.ofNat (48 + d)) = false ∧ Char.ofNat (48 + d) ≠ '\n' ∧
    Char.ofNat (48 + d) ≠ '#' ∧ Char.ofNat (48 + d) ≠ '+' ∧ Char.ofNat (48 + d) ≠ '-' ∧
    Char.ofNat (48 + d) ≠ '.' ∧ Char.ofNat (48 + d) ≠ 'e' ∧ Char.ofNat (48 + d) ≠ 'E' := by
  interval_cases d <;> decide

theorem digitsOnly_isDigit {l : List Char} (h : DigitsOnly l) :
    ∀ c ∈ l, c.isDigit = true := by
  intro c hc
  obtain ⟨d, hd, rfl⟩ := h c hc
  exact digitChar_isDigit hd

theorem digitsOnly_not_space {l : List Char} (h : DigitsOnly l) :
    ∀ c ∈ l, isSpaceC c = false := by
  intro c hc
  obtain ⟨d, hd, rfl⟩ := h c hc
  exact (digitChar_props hd).1

theorem digitsOnly_no_newline {l : List Char} (h : DigitsOnly l) : '\n' ∉ l := by
  intro hmem
  obtain ⟨d, hd, hc⟩ := h '\n' hmem
  exact (digitChar_props hd).2.1 hc.symm

theorem renderNatAux_zero (fuel : Nat) : renderNatAux fuel 0 = [] := by
  cases fuel <;> simp [renderNatAux]

theorem renderNatAux_digitsOnly : ∀ fuel n, DigitsOnly (renderNatAux fuel n) := by
  intro fuel
  induction fuel with
  | zero => intro n c hc; simp [renderNatAux] at hc
  | succ f ih =>
    intro n c hc
    simp only [renderNatAux] at hc
    by_cases h0 : n = 0
    · simp [h0] at hc
    · simp only [h0, if_false, List.mem_append, List.mem_singleton] at hc
      rcases hc with hc | hc
      · exact ih _ c hc
      · exact ⟨n % 10, Nat.mod_lt _ (by omega), hc⟩

theorem digitsVal_append_singleton (a : List Char) (c : Char) :
    digitsVal (a ++ [c]) = 10 * digitsVal a + (c.toNat - 48) := by
  simp [digitsVal, List.foldl_append, Nat.mul_comm]

theorem digitsVal_renderNatAux : ∀ fuel n, n ≤ fuel → digitsVal (renderNatAux fuel n) = n := by
  intro fuel
  induction fuel with
  | zero =>
    intro n h
    have : n = 0 := by omega
    simp [this, renderNatAux, digitsVal]
  | succ f ih =>
    intro n h
    by_cases h0 : n = 0
    · subst h0; simp [renderNatAux, digitsVal]
    · have hlt : n / 10 < n := Nat.div_lt_self (by omega) (by omega)
      simp only [renderNatAux, h0, if_false]
      rw [digitsVal_append_singleton, ih (n / 10) (by omega),
        digitChar_toNat (Nat.mod_lt _ (by omega))]
      omega

theorem renderNatAux_ne_nil {fuel n : Nat} (h0 : 0 < n) (h : n ≤ fuel) :
    renderNatAux fuel n ≠ [] := by
  cases fuel with
  | zero => omega
  | succ f =>
    simp only [renderNatAux, Nat.pos_iff_ne_zero.mp h0, if_false]
    simp

theorem renderNat_ne_nil (n : Nat) : renderNat n ≠ [] := by
  by_cases h0 : n = 0
  · subst h0; simp [renderNat]
  · simp only [renderNat, h0, if_false]
    exact renderNatAux_ne_nil (by omega) le_rfl

theorem digitsVal_renderNat (n : Nat) : digitsVal (renderNat n) = n := by
  by_cases h0 : n = 0
  · subst h0; decide
  · simp only [renderNat, h0, if_false]
    exact digitsVal_renderNatAux n n le_rfl

theorem renderNat_digitsOnly (n : Nat) : DigitsOnly (renderNat n) := by
  by_cases h0 : n = 0
  · subst h0
    intro c hc
    simp [renderNat] at hc
    exact ⟨0, by omega, by simp [hc]⟩
  · simp only [renderNat, h0, if_false]
    exact renderNatAux_digitsOnly n n

theorem renderNatAux_length : ∀ k fuel n, n ≤ fuel → n < 10 ^ k →
    (renderNatAux fuel n).length ≤ k := by
  intro k
  induction k with
  | zero =>
    intro fuel n _ hk
    have : n = 0 := by simpa using hk
    simp [this, renderNatAux_zero]
  | succ k ih =>
    intro fuel n hf hk
    cases fuel with
    | zero => simp [renderNatAux]
    | succ f =>
      by_cases h0 : n = 0
      · simp [h0, renderNatAux]
      · have hlt : n / 10 < n := Nat.div_lt_self (by omega) (by omega)
        have hdiv : n / 10 < 10 ^ k := by
          rw [Nat.div_lt_iff_lt_mul (by omega)]
          calc n < 10 ^ (k + 1) := hk
          _ = 10 ^ k * 10 := by ring
        simp only [renderNatAux, h0, if_false, List.length_append, List.length_singleton]
        have := ih f (n / 10) (by omega) hdiv
        omega

theorem renderNat_length {k n : Nat} (h : n < 10 ^ k) (hk : 0 < k) :
    (renderNat n).length ≤ k := by
  by_cases h0 : n = 0
  · subst h0; simp [renderNat]; omega
  · simp only [renderNat, h0, if_false]
    exact renderNatAux_length k n n le_rfl h

theorem renderInt_ofNat (n : Nat) : renderInt (n : Int) = renderNat n := by
  simp [renderInt]

theorem renderInt_neg {v : Int} (hv : v < 0) :
    renderInt v = '-' :: renderNat v.natAbs := by
  simp [renderInt, hv]

theorem renderInt_nonneg {v : Int} (hv : ¬v < 0) :
    renderInt v = renderNat v.toNat := by
  simp [renderInt, hv]

theorem renderInt_no_newline (v : Int) : '\n' ∉ renderInt v := by
  by_cases hv : v < 0
  · rw [renderInt_neg hv]
    intro h
    rcases List.mem_cons.mp h with h | h
    · exact absurd h.symm (by decide)
    · exact digitsOnly_no_newline (renderNat_digitsOnly _) h
  · rw [renderInt_nonneg hv]
    exact digitsOnly_no_newline (renderNat_digitsOnly _)

theorem renderInt_length {k : Nat} {v : Int} (h : v.natAbs < 10 ^ k) (hk : 0 < k) :
    (renderInt v).length ≤ k + 1 := by
  by_cases hv : v < 0
  · rw [renderInt_neg hv]
    simpa using Nat.add_le_add_right (renderNat_length h hk) 1
  · rw [renderInt_nonneg hv]
    have : v.toNat < 10 ^ k := by omega
    exact le_trans (renderNat_length this hk) (by omega)

theorem scanIntCore_render (w r : List Char) (v : Int) (hw : WsRun w)
    (hr : ∀ c, r.head? = some c → c.isDigit = false) :
    scanIntCore (w ++ (renderInt v ++ r)) = some (v, r) := by
  have hdig : ∀ n : Nat, (renderNat n ++ r).takeWhile Char.isDigit = renderNat n :=
    fun n => takeWhile_append_blocked (digitsOnly_isDigit (renderNat_digitsOnly n)) hr
  by_cases hv : v < 0
  · have hvv : (-1 : Int) * (v.natAbs : Int) = v := by omega
    simp only [scanIntCore, dropWhile_append_all _ hw, renderInt_neg hv, List.cons_append,
      List.dropWhile_cons, show isSpaceC '-' = false from rfl, Bool.false_eq_true, if_false,
      signSplit_minus, hdig]
    rw [if_neg (renderNat_ne_nil _), digitsVal_renderNat, List.drop_left, hvv]
  · obtain ⟨c, cs, hc⟩ := List.exists_cons_of_ne_nil (renderNat_ne_nil v.toNat)
    have hcmem : c ∈ renderNat v.toNat := by rw [hc]; exact List.mem_cons_self c cs
    obtain ⟨d, hd, hcd⟩ := renderNat_digitsOnly v.toNat c hcmem
    have props := digitChar_props hd
    have hdrop : (renderNat v.toNat ++ r).dropWhile isSpaceC = renderNat v.toNat ++ r := by
      apply dropWhile_blocked
      intro x hx
      rw [hc] at hx
      simp only [List.cons_append, List.head?_cons, Option.some.injEq] at hx
      rw [← hx, hcd]
      exact props.1
    have hsign : signSplit (renderNat v.toNat ++ r) = (1, renderNat v.toNat ++ r) := by
      rw [hc, List.cons_append]
      exact signSplit_default _ (hcd ▸ props.2.2.2.1) (hcd ▸ props.2.2.2.2.1)
    have hvv : (1 : Int) * (v.toNat : Int) = v := by omega
    simp only [scanIntCore, dropWhile_append_all _ hw, renderInt_nonneg hv, hdrop, hsign, hdig]
    rw [if_neg (renderNat_ne_nil _), digitsVal_renderNat, List.drop_left, hvv]

theorem ratVal_int (m : Int) : ratVal m 0 0 = (m : Rat) := by
  simp [ratVal]

theorem scanFloat_render (w r : List Char) (v : Int) (hw : WsRun w)
    (hr : ∀ c, r.head? = some c →
      c.isDigit = false ∧ c ≠ '.' ∧ c ≠ 'e' ∧ c ≠ 'E') :
    scanFloat (w ++ (renderInt v ++ r)) = some ((v : Rat), r) := by
  have hrd : ∀ c, r.head? = some c → Char.isDigit c = false := fun c hc => (hr c hc).1
  have hdig : ∀ n : Nat, (renderNat n ++ r).takeWhile Char.isDigit = renderNat n :=
    fun n => takeWhile_append_blocked (digitsOnly_isDigit (renderNat_digitsOnly n)) hrd
  have hfrac : fracSplit r = ([], r) :=
    fracSplit_blocked fun c hc => (hr c hc).2.1
  have hexp : ∀ m : Int, expSplit m 0 r = some (ratVal m 0 0, r) :=
    fun m => expSplit_blocked fun c hc => ⟨(hr c hc).2.2.1, (hr c hc).2.2.2⟩
  by_cases hv : v < 0
  · have hvv : (-1 : Int) * (v.natAbs : Int) = v := by omega
    simp only [scanFloat, dropWhile_append_all _ hw, renderInt_neg hv, List.cons_append,
      List.dropWhile_cons, show isSpaceC '-' = false from rfl, Bool.false_eq_true, if_false,
      signSplit_minus, hdig, List.drop_left, hfrac]
    rw [if_neg (by simp [renderNat_ne_nil])]
    simp only [List.append_nil, List.length_nil, hexp, ratVal_int, digitsVal_renderNat, hvv]
  · obtain ⟨c, cs, hc⟩ := List.exists_cons_of_ne_nil (renderNat_ne_nil v.toNat)
    have hcmem : c ∈ renderNat v.toNat := by rw [hc]; exact List.mem_cons_self c cs
    obtain ⟨d, hd, hcd⟩ := renderNat_digitsOnly v.toNat c hcmem
    have props := digitChar_props hd
    have hdrop : (renderNat v.toNat ++ r).dropWhile isSpaceC = renderNat v.toNat ++ r := by
      apply dropWhile_blocked
      intro x hx
      rw [hc] at hx
      simp only [List.cons_append, List.head?_cons, Option.some.injEq] at hx
      rw [← hx, hcd]
      exact props.1
    have hsign : signSplit (renderNat v.toNat ++ r) = (1, renderNat v.toNat ++ r) := by
      rw [hc, List.cons_append]
      exact signSplit_default _ (hcd ▸ props.2.2.2.1) (hcd ▸ props.2.2.2.2.1)
    have hvv : (1 : Int) * (v.toNat : Int) = v := by omega
    simp only [scanFloat, dropWhile_append_all _ hw, renderInt_nonneg hv, hdrop, hsign,
      hdig, List.drop_left, hfrac]
    rw [if_neg (by simp [renderNat_ne_nil])]
    simp only [List.append_nil, List.length_nil, hexp, ratVal_int, digitsVal_renderNat, hvv]

theorem dropWhile_space_renderInt (v : Int) (r : List Char) :
    (renderInt v ++ r).dropWhile isSpaceC = renderInt v ++ r := by
  by_cases hv : v < 0
  · rw [renderInt_neg hv, List.cons_append, List.dropWhile_cons]
    simp [show isSpaceC '-' = false from rfl]
  · rw [renderInt_nonneg hv]
    obtain ⟨c, cs, hc⟩ := List.exists_cons_of_ne_nil (renderNat_ne_nil v.toNat)
    have hcmem : c ∈ renderNat v.toNat := by rw [hc]; exact List.mem_cons_self c cs
    obtain ⟨d, hd, hcd⟩ := renderNat_digitsOnly v.toNat c hcmem
    rw [hc, List.cons_append, List.dropWhile_cons, hcd, (digitChar_props hd).1]
    simp [hcd]

theorem scanFloat_congr {s s' : List Char}
    (h : s.dropWhile isSpaceC = s'.dropWhile isSpaceC) : scanFloat s = scanFloat s' := by
  simp only [scanFloat, h]

theorem scanIntCore_congr {s s' : List Char}
    (h : s.dropWhile isSpaceC = s'.dropWhile isSpaceC) : scanIntCore s = scanIntCore s' := by
  simp only [scanIntCore, h]

theorem scanFloat_of {s : List Char} (r : List Char) (v : Int)
    (h : s.dropWhile isSpaceC = renderInt v ++ r)
    (hr : ∀ c, r.head? = some c →
      c.isDigit = false ∧ c ≠ '.' ∧ c ≠ 'e' ∧ c ≠ 'E') :
    scanFloat s = some ((v : Rat), r) := by
  have h2 := scanFloat_render [] r v (by intro c hc; cases hc) hr
  rw [List.nil_append] at h2
  rw [scanFloat_congr (h.trans (dropWhile_space_renderInt v r).symm), h2]

theorem scanIntCore_of {s : List Char} (r : List Char) (v : Int)
    (h : s.dropWhile isSpaceC = renderInt v ++ r)
    (hr : ∀ c, r.head? = some c → c.isDigit = false) :
    scanIntCore s = some (v, r) := by
  have h2 := scanIntCore_render [] r v (by intro c hc; cases hc) hr
  rw [List.nil_append] at h2
  rw [scanIntCore_congr (h.trans (dropWhile_space_renderInt v r).symm), h2]

theorem scanIntCore_ofNat {s : List Char} (r : List Char) (n : Nat)
    (h : s.dropWhile isSpaceC = renderNat n ++ r)
    (hr : ∀ c, r.head? = some c → c.isDigit = false) :
    scanIntCore s = some ((n : Int), r) := by
  exact scanIntCore_of r (n : Int) (by rw [renderInt_ofNat]; exact h) hr

theorem head_space_blocks (t : List Char) :
    ∀ c, (' ' :: t).head? = some c →
      c.isDigit = false ∧ c ≠ '.' ∧ c ≠ 'e' ∧ c ≠ 'E' := by
  intro c hc
  simp only [List.head?_cons, Option.some.injEq] at hc
  subst hc
  decide

theorem head_newline_blocks (t : List Char) :
    ∀ c, ('\n' :: t).head? = some c →
      c.isDigit = false ∧ c ≠ '.' ∧ c ≠ 'e' ∧ c ≠ 'E' := by
  intro c hc
  simp only [List.head?_cons, Option.some.injEq] at hc
  subst hc
  decide

theorem dropWhile_space_cons_space (t : List Char) :
    (' ' :: t).dropWhile isSpaceC = t.dropWhile isSpaceC := by
  simp [List.dropWhile_cons, show isSpaceC ' ' = true from rfl]

theorem dropWhile_space_cons_newline (t : List Char) :
    ('\n' :: t).dropWhile isSpaceC = t.dropWhile isSpaceC := by
  simp [List.dropWhile_cons, show isSpaceC '\n' = true from rfl]

theorem scanVertex_render (w X : List Char) (x y z : Int) (e : Nat) (hw : WsRun w) :
    scanVertex (w ++ (vertLine (x, y, z, e) ++ X)) =
      some (((x : Rat), (y : Rat), (z : Rat)), '\n' :: X) := by
  have hd0 : (w ++ (vertLine (x, y, z, e) ++ X)).dropWhile isSpaceC =
      renderInt x ++ (' ' :: (renderInt y ++ (' ' :: (renderInt z ++
        (' ' :: (renderNat e ++ ('\n' :: X))))))) := by
    rw [dropWhile_append_all _ hw]
    simp only [vertLine, List.append_assoc, List.cons_append, List.singleton_append]
    exact dropWhile_space_renderInt x _
  have h1 : scanFloat (w ++ (vertLine (x, y, z, e) ++ X)) =
      some ((x : Rat), ' ' :: (renderInt y ++ (' ' :: (renderInt z ++
        (' ' :: (renderNat e ++ ('\n' :: X))))))) :=
    scanFloat_of _ x hd0 (head_space_blocks _)
  have h2 : scanFloat (' ' :: (renderInt y ++ (' ' :: (renderInt z ++
      (' ' :: (renderNat e ++ ('\n' :: X))))))) =
      some ((y : Rat), ' ' :: (renderInt z ++ (' ' :: (renderNat e ++ ('\n' :: X))))) :=
    scanFloat_of _ y
      (by rw [dropWhile_space_cons_space]; exact dropWhile_space_renderInt y _)
      (head_space_blocks _)
  have h3 : scanFloat (' ' :: (renderInt z ++ (' ' :: (renderNat e ++ ('\n' :: X))))) =
      some ((z : Rat), ' ' :: (renderNat e ++ ('\n' :: X))) :=
    scanFloat_of _ z
      (by rw [dropWhile_space_cons_space]; exact dropWhile_space_renderInt z _)
      (head_space_blocks _)
  have h4 : scanIntCore (' ' :: (renderNat e ++ ('\n' :: X))) =
      some ((e : Int), '\n' :: X) :=
    scanIntCore_ofNat _ e
      (by
        rw [dropWhile_space_cons_space, ← renderInt_ofNat]
        exact dropWhile_space_renderInt (e : Int) _)
      (fun c hc => (head_newline_blocks _ c hc).1)
  simp [scanVertex, h1, h2, h3, h4]

theorem wsRun_space : WsRun [' '] := by
  intro c hc
  simp only [List.mem_singleton] at hc
  subst hc
  rfl

theorem toSizeT_ofNat (n : Nat) : toSizeT (n : Int) = n % 2 ^ 64 := by
  unfold toSizeT
  rw [show ((n : Int) % (2 ^ 64 : Int)) = ((n % 2 ^ 64 : Nat) : Int) by push_cast; ring_nf,
    Int.toNat_ofNat]

theorem scanIntCore_ws_nat {s : List Char} (r : List Char) (n : Nat) (w : List Char)
    (hw : WsRun w) (h : s = w ++ (renderNat n ++ r))
    (hr : ∀ c, r.head? = some c → c.isDigit = false) :
    scanIntCore s = some ((n : Int), r) := by
  subst h
  apply scanIntCore_ofNat _ n _ hr
  rw [dropWhile_append_all _ hw, ← renderInt_ofNat]
  exact dropWhile_space_renderInt _ _

theorem scanTriangle_render (w X : List Char) (a b c : Nat) (e : Nat) (hw : WsRun w) :
    scanTriangle (w ++ (triLine (a, b, c, e) ++ X)) =
      some ((a % 2 ^ 64, b % 2 ^ 64, c % 2 ^ 64), '\n' :: X) := by
  have h1 : scanIntCore (w ++ (triLine (a, b, c, e) ++ X)) =
      some ((a : Int), ' ' :: (renderNat b ++ (' ' :: (renderNat c ++
        (' ' :: (renderNat e ++ ('\n' :: X))))))) := by
    apply scanIntCore_ws_nat _ a w hw _ (fun x hx => (head_space_blocks _ x hx).1)
    simp only [triLine, List.append_assoc, List.cons_append, List.singleton_append,
      List.nil_append]
  have h2 : scanIntCore (' ' :: (renderNat b ++ (' ' :: (renderNat c ++
      (' ' :: (renderNat e ++ ('\n' :: X))))))) =
      some ((b : Int), ' ' :: (renderNat c ++ (' ' :: (renderNat e ++ ('\n' :: X))))) :=
    scanIntCore_ws_nat _ b [' '] wsRun_space rfl
      (fun x hx => (head_space_blocks _ x hx).1)
  have h3 : scanIntCore (' ' :: (renderNat c ++ (' ' :: (renderNat e ++ ('\n' :: X))))) =
      some ((c : Int), ' ' :: (renderNat e ++ ('\n' :: X))) :=
    scanIntCore_ws_nat _ c [' '] wsRun_space rfl
      (fun x hx => (head_space_blocks _ x hx).1)
  have h4 : scanIntCore (' ' :: (renderNat e ++ ('\n' :: X))) =
      some ((e : Int), '\n' :: X) :=
    scanIntCore_ws_nat _ e [' '] wsRun_space rfl
      (fun x hx => (head_newline_blocks _ x hx).1)
  simp [scanTriangle, h1, h2, h3, h4, toSizeT_ofNat]

theorem scanTet_render (w X : List Char) (a b c d : Nat) (e : Nat) (hw : WsRun w) :
    scanTet (w ++ (tetLine (a, b, c, d, e) ++ X)) =
      some ((a % 2 ^ 64, b % 2 ^ 64, c % 2 ^ 64, d % 2 ^ 64), '\n' :: X) := by
  have h1 : scanIntCore (w ++ (tetLine (a, b, c, d, e) ++ X)) =
      some ((a : Int), ' ' :: (renderNat b ++ (' ' :: (renderNat c ++
        (' ' :: (renderNat d ++ (' ' :: (renderNat e ++ ('\n' :: X))))))))) := by
    apply scanIntCore_ws_nat _ a w hw _ (fun x hx => (head_space_blocks _ x hx).1)
    simp only [tetLine, List.append_assoc, List.cons_append, List.singleton_append,
      List.nil_append]
  have h2 : scanIntCore (' ' :: (renderNat b ++ (' ' :: (renderNat c ++
      (' ' :: (renderNat d ++ (' ' :: (renderNat e ++ ('\n' :: X))))))))) =
      some ((b : Int), ' ' :: (renderNat c ++ (' ' :: (renderNat d ++
        (' ' :: (renderNat e ++ ('\n' :: X))))))) :=
    scanIntCore_ws_nat _ b [' '] wsRun_space rfl
      (fun x hx => (head_space_blocks _ x hx).1)
  have h3 : scanIntCore (' ' :: (renderNat c ++ (' ' :: (renderNat d ++
      (' ' :: (renderNat e ++ ('\n' :: X))))))) =
      some ((c : Int), ' ' :: (renderNat d ++ (' ' :: (renderNat e ++ ('\n' :: X))))) :=
    scanIntCore_ws_nat _ c [' '] wsRun_space rfl
      (fun x hx => (head_space_blocks _ x hx).1)
  have h4 : scanIntCore (' ' :: (renderNat d ++ (' ' :: (renderNat e ++ ('\n' :: X))))) =
      some ((d : Int), ' ' :: (renderNat e ++ ('\n' :: X))) :=
    scanIntCore_ws_nat _ d [' '] wsRun_space rfl
      (fun x hx => (head_space_blocks _ x hx).1)
  have h5 : scanIntCore (' ' :: (renderNat e ++ ('\n' :: X))) =
      some ((e : Int), '\n' :: X) :=
    scanIntCore_ws_nat _ e [' '] wsRun_space rfl
      (fun x hx => (head_newline_blocks _ x hx).1)
  simp [scanTet, h1, h2, h3, h4, h5, toSizeT_ofNat]

theorem fgetsTake_rest_le : ∀ (fuel : Nat) (s : List Char),
    (fgetsTake fuel s).2.length ≤ s.length := by
  intro fuel s
  induction s generalizing fuel with
  | nil => simp [fgetsTake]
  | cons c s ih =>
    simp only [fgetsTake]
    by_cases h0 : fuel = 0
    · simp [h0]
    · simp only [h0, if_false]
      by_cases hc : c = '\n'
      · simp [hc, List.length_cons]
      · simp only [hc, if_false]
        have := ih (fuel - 1)
        simp only [List.length_cons]
        omega

theorem fgetsTake_cons_rest_le (fuel : Nat) (c : Char) (s : List Char) (h0 : fuel ≠ 0) :
    (fgetsTake fuel (c :: s)).2.length ≤ s.length := by
  simp only [fgetsTake, h0, if_false]
  by_cases hc : c = '\n'
  · simp [hc]
  · simp only [hc, if_false]
    exact fgetsTake_rest_le (fuel - 1) s

theorem eatCommentsAux_congr : ∀ (f1 f2 : Nat) (buf s : List Char),
    s.length < f1 → s.length < f2 → eatCommentsAux f1 buf s = eatCommentsAux f2 buf s := by
  intro f1
  induction f1 with
  | zero =>
    intro f2 buf s h1 _
    omega
  | succ f ih =>
    intro f2 buf s h1 h2
    cases f2 with
    | zero => omega
    | succ f2' =>
      cases s with
      | nil => rfl
      | cons c s' =>
        simp only [eatCommentsAux, fgets]
        rcases hfg : fgetsTake 2047 (c :: s') with ⟨l, r⟩
        have hr : r.length ≤ s'.length := by
          have := fgetsTake_cons_rest_le 2047 c s' (by omega)
          rw [hfg] at this
          exact this
        simp only [List.length_cons] at h1 h2
        by_cases hcm : isCommentStart l = true
        · simp only [hcm, if_true]
          exact ih f2' l r (by omega) (by omega)
        · simp only [Bool.not_eq_true] at hcm
          simp [hcm]

theorem eatCommentsAux_succ (fuel : Nat) (buf s : List Char) :
    eatCommentsAux (fuel + 1) buf s = (match fgets s with
      | none => if isCommentStart buf then none else some (buf, [])
      | some (line, rest) =>
        if isCommentStart line then eatCommentsAux fuel line rest
        else some (line, rest)) := rfl

theorem eatComments_step (buf s : List Char) :
    eatComments buf s = (match fgets s with
      | none => if isCommentStart buf then none else some (buf, [])
      | some (line, rest) =>
        if isCommentStart line then eatComments line rest else some (line, rest)) := by
  cases s with
  | nil => rfl
  | cons c s' =>
    show eatCommentsAux ((c :: s').length + 1) buf (c :: s') = _
    rw [List.length_cons, eatCommentsAux_succ]
    rcases hfg : fgetsTake 2047 (c :: s') with ⟨l, r⟩
    have hr : r.length ≤ s'.length := by
      have := fgetsTake_cons_rest_le 2047 c s' (by omega)
      rw [hfg] at this
      exact this
    have hfg2 : fgets (c :: s') = some (l, r) := by rw [fgets, hfg]
    simp only [hfg2]
    by_cases hcm : isCommentStart l = true
    · simp only [hcm, if_true]
      exact eatCommentsAux_congr (s'.length + 1) (r.length + 1) l r (by omega) (by omega)
    · simp only [Bool.not_eq_true] at hcm
      simp [hcm]

theorem fgetsTake_line : ∀ (a : List Char) (fuel : Nat) (r : List Char),
    '\n' ∉ a → a.length < fuel → fgetsTake fuel (a ++ '\n' :: r) = (a ++ ['\n'], r) := by
  intro a
  induction a with
  | nil =>
    intro fuel r _ hf
    have h0 : fuel ≠ 0 := by omega
    simp [fgetsTake, h0]
  | cons c a ih =>
    intro fuel r hnl hf
    have h0 : fuel ≠ 0 := by simp at hf; omega
    have hc : c ≠ '\n' := fun h => hnl (h ▸ List.mem_cons_self c a)
    simp only [List.cons_append, fgetsTake, h0, if_false, hc, List.append_eq]
    rw [ih (fuel - 1) r (fun h => hnl (List.mem_cons_of_mem _ h)) (by simp at hf; omega)]

theorem fgets_line {a : List Char} (r : List Char)
    (hnl : '\n' ∉ a) (hlen : a.length < 2047) :
    fgets (a ++ '\n' :: r) = some (a ++ ['\n'], r) := by
  cases a with
  | nil =>
    have h := fgetsTake_line [] 2047 r hnl hlen
    simp only [List.nil_append] at h
    simp [fgets, h]
  | cons c a' =>
    rw [List.cons_append]
    show some (fgetsTake 2047 (c :: (a' ++ '\n' :: r))) = _
    rw [← List.cons_append, fgetsTake_line _ 2047 r hnl hlen]

theorem eatComments_line (buf : List Char) {a : List Char} (r : List Char)
    (hnl : '\n' ∉ a) (hlen : a.length < 2047) (hne : a ≠ [])
    (hhd : a.head? ≠ some '#') :
    eatComments buf (a ++ '\n' :: r) = some (a ++ ['\n'], r) := by
  rw [eatComments_step, fgets_line r hnl hlen]
  obtain ⟨c, a', rfl⟩ := List.exists_cons_of_ne_nil hne
  have hc1 : c ≠ '#' := fun h => hhd (by simp [h])
  have hc2 : c ≠ '\n' := fun h => hnl (h ▸ List.mem_cons_self c a')
  have hcs : isCommentStart (c :: (a' ++ ['\n'])) = false := by
    simp [isCommentStart, hc1, hc2]
  simp [hcs]

theorem eatComments_blank (buf s : List Char) :
    eatComments buf ('\n' :: s) = eatComments ['\n'] s := by
  rw [eatComments_step]
  have h : fgets ('\n' :: s) = some (['\n'], s) := rfl
  rw [h]
  rfl

theorem eatComments_buf_irrel {s : List Char} (b1 b2 : List Char) (hs : s ≠ []) :
    eatComments b1 s = eatComments b2 s := by
  obtain ⟨c, s', rfl⟩ := List.exists_cons_of_ne_nil hs
  rw [eatComments_step, eatComments_step]
  have h : fgets (c :: s') = some (fgetsTake 2047 (c :: s')) := rfl
  rw [h]

theorem eatComments_flatten_line (ls : List (List Char)) {a : List Char} (r : List Char)
    (hnl : '\n' ∉ a) (hlen : a.length < 2047) (hne : a ≠ [])
    (hhd : a.head? ≠ some '#') :
    ∀ buf, (∀ l ∈ ls, CommentLine l) →
    eatComments buf (ls.flatten ++ (a ++ '\n' :: r)) = some (a ++ ['\n'], r) := by
  induction ls with
  | nil =>
    intro buf _
    simp only [List.flatten_nil, List.nil_append]
    exact eatComments_line buf r hnl hlen hne hhd
  | cons l0 ls ih =>
    intro buf hls
    have hl0 := hls l0 (List.mem_cons_self l0 ls)
    obtain ⟨hlen0, hne0, hlast0, hmid0, hstart0⟩ := hl0
    obtain ⟨ys, rfl⟩ := List.getLast?_eq_some_iff.mp hlast0
    have hys : (ys ++ ['\n']).dropLast = ys := by simp
    rw [hys] at hmid0
    have hylen : ys.length < 2047 := by
      simp only [List.length_append, List.length_singleton] at hlen0
      omega
    rw [List.flatten_cons, List.append_assoc, List.append_assoc, List.singleton_append,
      eatComments_step, fgets_line _ hmid0 hylen]
    have hcm : isCommentStart (ys ++ ['\n']) = true := by
      cases ys with
      | nil => rfl
      | cons c ys' =>
        rcases hstart0 with h | h
        · simp only [List.cons_append, List.head?_cons, Option.some.injEq] at h
          simp [isCommentStart, h]
        · exfalso
          have := congrArg List.length h
          simp at this
    have hih := ih (ys ++ ['\n']) fun x hx => hls x (List.mem_cons_of_mem _ hx)
    simp [hcm, hih]

theorem wsRun_nil : WsRun [] := by
  intro c hc
  cases hc

theorem wsRun_cons_newline {w : List Char} (hw : WsRun w) : WsRun ('\n' :: w) := by
  intro c hc
  rcases List.mem_cons.mp hc with rfl | hc
  · rfl
  · exact hw c hc

theorem versionStage_of {buf s Y : List Char}
    (h : eatComments buf s = some (chars "MeshVersionFormatted 1\n", Y)) :
    versionStage buf s = .inr (chars "MeshVersionFormatted 1\n", Y) := by
  have h1 : firstToken (chars "MeshVersionFormatted 1\n") =
      some (chars "MeshVersionFormatted") := by decide
  have h2 : sameLineInt (chars "MeshVersionFormatted 1\n") = some 1 := by decide
  simp [versionStage, h, h1, h2, keywordValue]

theorem dimensionStage_of {buf s Y : List Char}
    (h : eatComments buf s = some (chars "Dimension 3\n", Y)) :
    dimensionStage buf s = .inr (chars "Dimension 3\n", Y) := by
  have h1 : firstToken (chars "Dimension 3\n") = some (chars "Dimension") := by decide
  have h2 : sameLineInt (chars "Dimension 3\n") = some 3 := by decide
  simp [dimensionStage, h, h1, h2, keywordValue]

theorem verticesHeaderStage_of {buf s t : List Char}
    (h : eatComments buf s = some (chars "Vertices\n", t)) :
    verticesHeaderStage buf s = (match scanIntCore t with
      | some (v, s2) => .inr (chars "Vertices\n", toSizeT v, s2)
      | none => .inl (.fail .expectingVertexCount true)) := by
  have h1 : firstToken (chars "Vertices\n") = some (chars "Vertices") := by decide
  simp [verticesHeaderStage, h, h1]

theorem trianglesHeaderStage_of {buf s t : List Char}
    (h : eatComments buf s = some (chars "Triangles\n", t)) :
    trianglesHeaderStage buf s = (match scanIntCore t with
      | some (v, s2) => .inr (chars "Triangles\n", toSizeT v, s2)
      | none => .inl (.fail .expectingTriangleCount true)) := by
  have h1 : firstToken (chars "Triangles\n") = some (chars "Triangles") := by decide
  simp [trianglesHeaderStage, h, h1]

theorem tetrahedraHeaderStage_of {buf s t : List Char}
    (h : eatComments buf s = some (chars "Tetrahedra\n", t)) :
    tetrahedraHeaderStage buf s = (match scanIntCore t with
      | some (v, s2) => .inr (chars "Tetrahedra\n", toSizeT v, s2)
      | none => .inl (.fail .expectingTetCount true)) := by
  have h1 : firstToken (chars "Tetrahedra\n") = some (chars "Tetrahedra") := by decide
  simp [tetrahedraHeaderStage, h, h1]

theorem readVertexLoop_append (vs : List (List Char × (Int × Int × Int × Nat))) :
    ∀ (m : Nat) (rest : List Char) (acc : List (List Rat)),
    (∀ p ∈ vs, WsRun p.1) →
    readVertexLoop (vs.length + m) ('\n' :: (vertBody vs ++ rest)) acc =
      readVertexLoop m ('\n' :: rest) (acc ++ vs.map fun p => vertRow p.2) := by
  induction vs with
  | nil =>
    intro m rest acc _
    simp [vertBody]
  | cons p vs ih =>
    intro m rest acc hws
    rcases p with ⟨pw, px, py, pz, pe⟩
    have hw : WsRun ('\n' :: pw) :=
      wsRun_cons_newline (hws _ (List.mem_cons_self _ _))
    have hstream : '\n' :: (vertBody ((pw, px, py, pz, pe) :: vs) ++ rest) =
        ('\n' :: pw) ++ (vertLine (px, py, pz, pe) ++ (vertBody vs ++ rest)) := by
      simp [vertBody, List.append_assoc]
    have hscan := scanVertex_render ('\n' :: pw) (vertBody vs ++ rest) px py pz pe hw
    rw [hstream, show ((pw, px, py, pz, pe) :: vs).length + m = (vs.length + m) + 1 by
      simp [List.length_cons]; omega]
    simp only [readVertexLoop, hscan]
    rw [ih m rest (acc ++ [[(px : Rat), (py : Rat), (pz : Rat)]])
      (fun q hq => hws q (List.mem_cons_of_mem _ hq))]
    simp [vertRow, List.append_assoc]

theorem readVertexLoop_shape : ∀ (n : Nat) (s : List Char) (acc V : List (List Rat))
    (s' : List Char), readVertexLoop n s acc = .inr (V, s') →
    V.length = acc.length + n ∧ ∀ r ∈ V, r ∈ acc ∨ r.length = 3 := by
  intro n
  induction n with
  | zero =>
    intro s acc V s' h
    simp only [readVertexLoop, Sum.inr.injEq, Prod.mk.injEq] at h
    obtain ⟨rfl, rfl⟩ := h
    exact ⟨by omega, fun r hr => Or.inl hr⟩
  | succ k ih =>
    intro s acc V s' h
    simp only [readVertexLoop] at h
    cases hscan : scanVertex s with
    | none => rw [hscan] at h; cases h
    | some p =>
      rw [hscan] at h
      obtain ⟨hlen, hmem⟩ := ih p.2 (acc ++ [[p.1.1, p.1.2.1, p.1.2.2]]) V s' h
      constructor
      · simp only [List.length_append, List.length_singleton] at hlen
        omega
      · intro r hr
        rcases hmem r hr with hmem2 | hl
        · rcases List.mem_append.mp hmem2 with h2 | h2
          · exact Or.inl h2
          · simp only [List.mem_singleton] at h2
            subst h2
            exact Or.inr (by simp)
        · exact Or.inr hl

theorem readTriangleLoop_append (fs : List (List Char × (Nat × Nat × Nat × Nat))) :
    ∀ (m : Nat) (rest : List Char) (acc : List (List Nat)),
    (∀ p ∈ fs, WsRun p.1) →
    readTriangleLoop (fs.length + m) ('\n' :: (triBody fs ++ rest)) acc =
      readTriangleLoop m ('\n' :: rest) (acc ++ fs.map fun p => triRow p.2) := by
  induction fs with
  | nil =>
    intro m rest acc _
    simp [triBody]
  | cons p fs ih =>
    intro m rest acc hws
    rcases p with ⟨pw, pa, pb, pc, pe⟩
    have hw : WsRun ('\n' :: pw) :=
      wsRun_cons_newline (hws _ (List.mem_cons_self _ _))
    have hstream : '\n' :: (triBody ((pw, pa, pb, pc, pe) :: fs) ++ rest) =
        ('\n' :: pw) ++ (triLine (pa, pb, pc, pe) ++ (triBody fs ++ rest)) := by
      simp [triBody, List.append_assoc]
    have hscan := scanTriangle_render ('\n' :: pw) (triBody fs ++ rest) pa pb pc pe hw
    rw [hstream, show ((pw, pa, pb, pc, pe) :: fs).length + m = (fs.length + m) + 1 by
      simp [List.length_cons]; omega]
    simp only [readTriangleLoop, hscan]
    rw [ih m rest (acc ++ [[sizeSub1 (pa % 2 ^ 64), sizeSub1 (pb % 2 ^ 64),
      sizeSub1 (pc % 2 ^ 64)]]) (fun q hq => hws q (List.mem_cons_of_mem _ hq))]
    simp [triRow, List.append_assoc]

theorem readTriangleLoop_fail {n : Nat} (s : List Char) (acc : List (List Nat))
    (hn : n ≠ 0) (h : scanTriangle s = none) :
    readTriangleLoop n s acc = .inl (.fail .expectingTriangleIndices false) := by
  cases n with
  | zero => exact absurd rfl hn
  | succ k => simp [readTriangleLoop, h]

theorem readTriangleLoop_shape : ∀ (n : Nat) (s : List Char) (acc V : List (List Nat))
    (s' : List Char), readTriangleLoop n s acc = .inr (V, s') →
    V.length = acc.length + n ∧ ∀ r ∈ V, r ∈ acc ∨ r.length = 3 := by
  intro n
  induction n with
  | zero =>
    intro s acc V s' h
    simp only [readTriangleLoop, Sum.inr.injEq, Prod.mk.injEq] at h
    obtain ⟨rfl, rfl⟩ := h
    exact ⟨by omega, fun r hr => Or.inl hr⟩
  | succ k ih =>
    intro s acc V s' h
    simp only [readTriangleLoop] at h
    cases hscan : scanTriangle s with
    | none => rw [hscan] at h; cases h
    | some p =>
      rw [hscan] at h
      obtain ⟨hlen, hmem⟩ := ih p.2
        (acc ++ [[sizeSub1 p.1.1, sizeSub1 p.1.2.1, sizeSub1 p.1.2.2]]) V s' h
      constructor
      · simp only [List.length_append, List.length_singleton] at hlen
        omega
      · intro r hr
        rcases hmem r hr with hmem2 | hl
        · rcases List.mem_append.mp hmem2 with h2 | h2
          · exact Or.inl h2
          · simp only [List.mem_singleton] at h2
            subst h2
            exact Or.inr (by simp)
        · exact Or.inr hl

theorem readTetLoop_append (ks : List (List Char × (Nat × Nat × Nat × Nat × Nat))) :
    ∀ (m : Nat) (rest : List Char) (acc : List (List Nat)),
    (∀ p ∈ ks, WsRun p.1) →
    readTetLoop (ks.length + m) ('\n' :: (tetBody ks ++ rest)) acc =
      readTetLoop m ('\n' :: rest) (acc ++ ks.map fun p => tetRow p.2) := by
  induction ks with
  | nil =>
    intro m rest acc _
    simp [tetBody]
  | cons p ks ih =>
    intro m rest acc hws
    rcases p with ⟨pw, pa, pb, pc, pd, pe⟩
    have hw : WsRun ('\n' :: pw) :=
      wsRun_cons_newline (hws _ (List.mem_cons_self _ _))
    have hstream : '\n' :: (tetBody ((pw, pa, pb, pc, pd, pe) :: ks) ++ rest) =
        ('\n' :: pw) ++ (tetLine (pa, pb, pc, pd, pe) ++ (tetBody ks ++ rest)) := by
      simp [tetBody, List.append_assoc]
    have hscan := scanTet_render ('\n' :: pw) (tetBody ks ++ rest) pa pb pc pd pe hw
    rw [hstream, show ((pw, pa, pb, pc, pd, pe) :: ks).length + m = (ks.length + m) + 1 by
      simp [List.length_cons]; omega]
    simp only [readTetLoop, hscan]
    rw [ih m rest (acc ++ [[sizeSub1 (pa % 2 ^ 64), sizeSub1 (pb % 2 ^ 64),
      sizeSub1 (pc % 2 ^ 64), sizeSub1 (pd % 2 ^ 64)]])
      (fun q hq => hws q (List.mem_cons_of_mem _ hq))]
    simp [tetRow, List.append_assoc]

theorem readTetLoop_fail {n : Nat} (s : List Char) (acc : List (List Nat))
    (hn : n ≠ 0) (h : scanTet s = none) :
    readTetLoop n s acc = .inl (.fail .expectingTetIndices true) := by
  cases n with
  | zero => exact absurd rfl hn
  | succ k => simp [readTetLoop, h]

theorem readTetLoop_shape : ∀ (n : Nat) (s : List Char) (acc V : List (List Nat))
    (s' : List Char), readTetLoop n s acc = .inr (V, s') →
    V.length = acc.length + n ∧ ∀ r ∈ V, r ∈ acc ∨ r.length = 4 := by
  intro n
  induction n with
  | zero =>
    intro s acc V s' h
    simp only [readTetLoop, Sum.inr.injEq, Prod.mk.injEq] at h
    obtain ⟨rfl, rfl⟩ := h
    exact ⟨by omega, fun r hr => Or.inl hr⟩
  | succ k ih =>
    intro s acc V s' h
    simp only [readTetLoop] at h
    cases hscan : scanTet s with
    | none => rw [hscan] at h; cases h
    | some p =>
      rw [hscan] at h
      obtain ⟨hlen, hmem⟩ := ih p.2
        (acc ++ [[sizeSub1 p.1.1, sizeSub1 p.1.2.1, sizeSub1 p.1.2.2.1,
          sizeSub1 p.1.2.2.2]]) V s' h
      constructor
      · simp only [List.length_append, List.length_singleton] at hlen
        omega
      · intro r hr
        rcases hmem r hr with hmem2 | hl
        · rcases List.mem_append.mp hmem2 with h2 | h2
          · exact Or.inl h2
          · simp only [List.mem_singleton] at h2
            subst h2
            exact Or.inr (by simp)
        · exact Or.inr hl

theorem eatComments_block_line {g r : List Char} (hb : CommentBlock g) (a : List Char)
    {l : List Char} (hl : l = a ++ ['\n']) (hnl : '\n' ∉ a) (hlen : a.length < 2047)
    (hne : a ≠ []) (hhd : a.head? ≠ some '#') (buf : List Char) :
    eatComments buf (g ++ (l ++ r)) = some (l, r) := by
  subst hl
  obtain ⟨ls, hls, rfl⟩ := hb
  rw [List.append_assoc, List.singleton_append]
  exact eatComments_flatten_line ls r hnl hlen hne hhd buf hls

theorem scanIntCore_renderNat_newline (n : Nat) (t : List Char) :
    scanIntCore (renderNat n ++ '\n' :: t) = some ((n : Int), '\n' :: t) := by
  apply scanIntCore_ws_nat ('\n' :: t) n [] wsRun_nil (by simp)
  intro c hc
  exact (head_newline_blocks t c hc).1

theorem parseMESH_renderMeshG (g1 g2 g3 g4 g5 : List Char)
    (vs : List (List Char × (Int × Int × Int × Nat)))
    (fs : List (List Char × (Nat × Nat × Nat × Nat)))
    (ks : List (List Char × (Nat × Nat × Nat × Nat × Nat)))
    (hb1 : CommentBlock g1) (hb2 : CommentBlock g2) (hb3 : CommentBlock g3)
    (hb4 : CommentBlock g4) (hb5 : CommentBlock g5)
    (hwv : ∀ p ∈ vs, WsRun p.1) (hwf : ∀ p ∈ fs, WsRun p.1)
    (hwk : ∀ p ∈ ks, WsRun p.1)
    (hlv : vs.length < 2 ^ 63) (hlf : fs.length < 2 ^ 63) (hlk : ks.length < 2 ^ 63) :
    parseMESH (renderMeshG g1 g2 g3 g4 g5 vs fs ks) =
      .ok (vs.map fun p => vertRow p.2) (ks.map fun p => tetRow p.2)
        (fs.map fun p => triRow p.2) := by
  have hS : renderMeshG g1 g2 g3 g4 g5 vs fs ks =
      g1 ++ (chars "MeshVersionFormatted 1\n" ++
        (g2 ++ (chars "Dimension 3\n" ++
          (g3 ++ (chars "Vertices\n" ++ (renderNat vs.length ++ ('\n' ::
            (vertBody vs ++ (g4 ++ (chars "Triangles\n" ++ (renderNat fs.length ++ ('\n' ::
              (triBody fs ++ (g5 ++ (chars "Tetrahedra\n" ++ (renderNat ks.length ++ ('\n' ::
                tetBody ks))))))))))))))))) := by
    simp [renderMeshG, List.append_assoc]
  have h1 : versionStage [] (renderMeshG g1 g2 g3 g4 g5 vs fs ks) =
      .inr (chars "MeshVersionFormatted 1\n", g2 ++ (chars "Dimension 3\n" ++
        (g3 ++ (chars "Vertices\n" ++ (renderNat vs.length ++ ('\n' ::
          (vertBody vs ++ (g4 ++ (chars "Triangles\n" ++ (renderNat fs.length ++ ('\n' ::
            (triBody fs ++ (g5 ++ (chars "Tetrahedra\n" ++ (renderNat ks.length ++ ('\n' ::
              tetBody ks)))))))))))))))) := by
    apply versionStage_of
    rw [hS]
    exact eatComments_block_line hb1 (chars "MeshVersionFormatted 1") (by decide)
      (by decide) (by decide) (by decide) (by decide) []
  have h2 : dimensionStage (chars "MeshVersionFormatted 1\n")
      (g2 ++ (chars "Dimension 3\n" ++
      (g3 ++ (chars "Vertices\n" ++ (renderNat vs.length ++ ('\n' ::
        (vertBody vs ++ (g4 ++ (chars "Triangles\n" ++ (renderNat fs.length ++ ('\n' ::
          (triBody fs ++ (g5 ++ (chars "Tetrahedra\n" ++ (renderNat ks.length ++ ('\n' ::
            tetBody ks)))))))))))))))) =
      .inr (chars "Dimension 3\n", g3 ++ (chars "Vertices\n" ++ (renderNat vs.length ++ ('\n' ::
        (vertBody vs ++ (g4 ++ (chars "Triangles\n" ++ (renderNat fs.length ++ ('\n' ::
          (triBody fs ++ (g5 ++ (chars "Tetrahedra\n" ++ (renderNat ks.length ++ ('\n' ::
            tetBody ks)))))))))))))) := by
    apply dimensionStage_of
    exact eatComments_block_line hb2 (chars "Dimension 3") (by decide) (by decide)
      (by decide) (by decide) (by decide) _
  have h3 : verticesHeaderStage (chars "Dimension 3\n")
      (g3 ++ (chars "Vertices\n" ++ (renderNat vs.length ++ ('\n' ::
      (vertBody vs ++ (g4 ++ (chars "Triangles\n" ++ (renderNat fs.length ++ ('\n' ::
        (triBody fs ++ (g5 ++ (chars "Tetrahedra\n" ++ (renderNat ks.length ++ ('\n' ::
          tetBody ks)))))))))))))) =
      .inr (chars "Vertices\n", vs.length, '\n' ::
        (vertBody vs ++ (g4 ++ (chars "Triangles\n" ++ (renderNat fs.length ++ ('\n' ::
          (triBody fs ++ (g5 ++ (chars "Tetrahedra\n" ++ (renderNat ks.length ++ ('\n' ::
            tetBody ks))))))))))) := by
    rw [verticesHeaderStage_of (eatComments_block_line hb3 (chars "Vertices") (by decide)
      (by decide) (by decide) (by decide) (by decide) _), scanIntCore_renderNat_newline]
    simp only [toSizeT_ofNat, Nat.mod_eq_of_lt (show vs.length < 2 ^ 64 by omega)]
  have h4 : readVertexLoop vs.length ('\n' ::
      (vertBody vs ++ (g4 ++ (chars "Triangles\n" ++ (renderNat fs.length ++ ('\n' ::
        (triBody fs ++ (g5 ++ (chars "Tetrahedra\n" ++ (renderNat ks.length ++ ('\n' ::
          tetBody ks))))))))))) [] =
      .inr (vs.map fun p => vertRow p.2, '\n' ::
        (g4 ++ (chars "Triangles\n" ++ (renderNat fs.length ++ ('\n' ::
          (triBody fs ++ (g5 ++ (chars "Tetrahedra\n" ++ (renderNat ks.length ++ ('\n' ::
            tetBody ks)))))))))) := by
    have h := readVertexLoop_append vs 0
      (g4 ++ (chars "Triangles\n" ++ (renderNat fs.length ++ ('\n' ::
        (triBody fs ++ (g5 ++ (chars "Tetrahedra\n" ++ (renderNat ks.length ++ ('\n' ::
          tetBody ks)))))))))
      [] hwv
    simpa [readVertexLoop] using h
  have h5 : trianglesHeaderStage (chars "Vertices\n") ('\n' ::
      (g4 ++ (chars "Triangles\n" ++ (renderNat fs.length ++ ('\n' ::
        (triBody fs ++ (g5 ++ (chars "Tetrahedra\n" ++ (renderNat ks.length ++ ('\n' ::
          tetBody ks)))))))))) =
      .inr (chars "Triangles\n", fs.length, '\n' ::
        (triBody fs ++ (g5 ++ (chars "Tetrahedra\n" ++ (renderNat ks.length ++ ('\n' ::
          tetBody ks)))))) := by
    have e5 : eatComments (chars "Vertices\n") ('\n' ::
        (g4 ++ (chars "Triangles\n" ++ (renderNat fs.length ++ ('\n' ::
          (triBody fs ++ (g5 ++ (chars "Tetrahedra\n" ++ (renderNat ks.length ++ ('\n' ::
            tetBody ks)))))))))) =
        some (chars "Triangles\n", renderNat fs.length ++ ('\n' ::
          (triBody fs ++ (g5 ++ (chars "Tetrahedra\n" ++ (renderNat ks.length ++ ('\n' ::
            tetBody ks))))))) := by
      rw [eatComments_blank]
      exact eatComments_block_line hb4 (chars "Triangles") (by decide) (by decide)
        (by decide) (by decide) (by decide) _
    rw [trianglesHeaderStage_of e5, scanIntCore_renderNat_newline]
    simp only [toSizeT_ofNat, Nat.mod_eq_of_lt (show fs.length < 2 ^ 64 by omega)]
  have h6 : readTriangleLoop fs.length ('\n' ::
      (triBody fs ++ (g5 ++ (chars "Tetrahedra\n" ++ (renderNat ks.length ++ ('\n' ::
        tetBody ks)))))) [] =
      .inr (fs.map fun p => triRow p.2, '\n' ::
        (g5 ++ (chars "Tetrahedra\n" ++ (renderNat ks.length ++ ('\n' ::
          tetBody ks))))) := by
    have h := readTriangleLoop_append fs 0
      (g5 ++ (chars "Tetrahedra\n" ++ (renderNat ks.length ++ ('\n' :: tetBody ks))))
      [] hwf
    simpa [readTriangleLoop] using h
  have h7 : tetrahedraHeaderStage (chars "Triangles\n") ('\n' ::
      (g5 ++ (chars "Tetrahedra\n" ++ (renderNat ks.length ++ ('\n' ::
        tetBody ks))))) =
      .inr (chars "Tetrahedra\n", ks.length, '\n' :: tetBody ks) := by
    have e7 : eatComments (chars "Triangles\n") ('\n' ::
        (g5 ++ (chars "Tetrahedra\n" ++ (renderNat ks.length ++ ('\n' ::
          tetBody ks))))) =
        some (chars "Tetrahedra\n", renderNat ks.length ++ ('\n' :: tetBody ks)) := by
      rw [eatComments_blank]
      exact eatComments_block_line hb5 (chars "Tetrahedra") (by decide) (by decide)
        (by decide) (by decide) (by decide) _
    rw [tetrahedraHeaderStage_of e7, scanIntCore_renderNat_newline]
    simp only [toSizeT_ofNat, Nat.mod_eq_of_lt (show ks.length < 2 ^ 64 by omega)]
  have h8 : readTetLoop ks.length ('\n' :: tetBody ks) [] =
      .inr (ks.map fun p => tetRow p.2, ['\n']) := by
    have h := readTetLoop_append ks 0 [] [] hwk
    simpa [readTetLoop] using h
  simp only [parseMESH, h1, h2, h3, h4, h5, h6, h7, h8]

theorem commentBlock_nil : CommentBlock [] :=
  ⟨[], fun l hl => absurd hl (List.not_mem_nil l), rfl⟩

theorem renderMesh0_parse (vs : List (Int × Int × Int × Nat))
    (fs : List (Nat × Nat × Nat × Nat)) (ks : List (Nat × Nat × Nat × Nat × Nat))
    (hlv : vs.length < 2 ^ 63) (hlf : fs.length < 2 ^ 63) (hlk : ks.length < 2 ^ 63) :
    parseMESH (renderMesh0 vs fs ks) =
      .ok (vs.map vertRow) (ks.map tetRow) (fs.map triRow) := by
  unfold renderMesh0
  rw [parseMESH_renderMeshG [] [] [] [] []
    (vs.map fun r => ([], r)) (fs.map fun r => ([], r)) (ks.map fun r => ([], r))
    commentBlock_nil commentBlock_nil commentBlock_nil commentBlock_nil commentBlock_nil
    (by intro p hp; obtain ⟨r, _, rfl⟩ := List.mem_map.mp hp; exact wsRun_nil)
    (by intro p hp; obtain ⟨r, _, rfl⟩ := List.mem_map.mp hp; exact wsRun_nil)
    (by intro p hp; obtain ⟨r, _, rfl⟩ := List.mem_map.mp hp; exact wsRun_nil)
    (by simpa using hlv) (by simpa using hlf) (by simpa using hlk)]
  simp [List.map_map, Function.comp]

theorem sizeSub1_eq {k : Nat} (h1 : 1 ≤ k) (h2 : k < 2 ^ 64) : sizeSub1 k = k - 1 := by
  simp only [sizeSub1]
  omega

/-- C1: the claim states the file handle is released on every exit path of the
parse.  The code violates it: the malformed-triangle-record branch
(readMESH.h lines 198-202) prints its diagnostic and returns `false` without
calling `fclose`, unlike every other failure branch.  This theorem evaluates
the parser on a file whose Triangles section declares one record but ends
before it: the run returns from exactly that branch, with the `closed` flag
`false`. -/
theorem readMESH_triangle_record_leaves_file_open :
    parseMESH (chars "MeshVersionFormatted 1\nDimension 3\nVertices\n1\n0 0 0 0\nTriangles\n1\n") =
      .fail .expectingTriangleIndices false := by decide

/-- C9: the claim states parse terminates on every finite input.  The code
violates it: when the input ends while the last line read was blank or a
comment, `fgets` fails at end-of-file leaving the line buffer unchanged, so
`still_comments` stays true and the comment-eating loop spins forever.  This
theorem evaluates the parser on the one-line file `#\n`: the model reports
the divergence of that loop. -/
theorem readMESH_comment_skip_diverges :
    parseMESH (chars "#\n") = .diverge := by decide

/-- C3: parsing the concrete 14-line example file succeeds with exactly the
four vertices (0,0,0), (1,0,0), (0,1,0), (0,0,1) in order, one face [0,1,2]
and one tetrahedron [0,1,2,3]. -/
theorem readMESH_example_parse :
    parseMESH (chars "MeshVersionFormatted 1\nDimension 3\nVertices\n4\n0 0 0 0\n1 0 0 0\n0 1 0 0\n0 0 1 0\nTriangles\n1\n1 2 3 0\nTetrahedra\n1\n1 2 3 4 0\n") =
      .ok [[0, 0, 0], [1, 0, 0], [0, 1, 0], [0, 0, 1]] [[0, 1, 2, 3]] [[0, 1, 2]] := by
  have hin : chars "MeshVersionFormatted 1\nDimension 3\nVertices\n4\n0 0 0 0\n1 0 0 0\n0 1 0 0\n0 0 1 0\nTriangles\n1\n1 2 3 0\nTetrahedra\n1\n1 2 3 4 0\n" =
      renderMesh0 [(0, 0, 0, 0), (1, 0, 0, 0), (0, 1, 0, 0), (0, 0, 1, 0)]
        [(1, 2, 3, 0)] [(1, 2, 3, 4, 0)] := by decide
  rw [hin, renderMesh0_parse _ _ _ (by decide) (by decide) (by decide)]
  simp [vertRow, triRow, tetRow]
  norm_num [sizeSub1]

/-- C2: for every well-formed file whose Triangles/Tetrahedra records carry
index fields `k` with `1 ≤ k` (and `k` representable in the `long` read by
`%ld`, i.e. `k < 2^63`), the parser stores exactly `k - 1` for each field:
the i-th face row is the file's three indices each minus one, and the i-th
tetrahedron row is the file's four indices each minus one. -/
theorem readMESH_index_rebase (vs : List (Int × Int × Int × Nat))
    (fs : List (Nat × Nat × Nat × Nat)) (ks : List (Nat × Nat × Nat × Nat × Nat))
    (hlv : vs.length < 2 ^ 63) (hlf : fs.length < 2 ^ 63) (hlk : ks.length < 2 ^ 63)
    (hf : ∀ r ∈ fs, (1 ≤ r.1 ∧ r.1 < 2 ^ 63) ∧ (1 ≤ r.2.1 ∧ r.2.1 < 2 ^ 63) ∧
      (1 ≤ r.2.2.1 ∧ r.2.2.1 < 2 ^ 63))
    (hk : ∀ r ∈ ks, (1 ≤ r.1 ∧ r.1 < 2 ^ 63) ∧ (1 ≤ r.2.1 ∧ r.2.1 < 2 ^ 63) ∧
      (1 ≤ r.2.2.1 ∧ r.2.2.1 < 2 ^ 63) ∧ (1 ≤ r.2.2.2.1 ∧ r.2.2.2.1 < 2 ^ 63)) :
    parseMESH (renderMesh0 vs fs ks) =
      .ok (vs.map vertRow)
        (ks.map fun r => [r.1 - 1, r.2.1 - 1, r.2.2.1 - 1, r.2.2.2.1 - 1])
        (fs.map fun r => [r.1 - 1, r.2.1 - 1, r.2.2.1 - 1]) := by
  rw [renderMesh0_parse vs fs ks hlv hlf hlk]
  have hfs : fs.map triRow = fs.map fun r => [r.1 - 1, r.2.1 - 1, r.2.2.1 - 1] := by
    apply List.map_congr_left
    intro r hr
    obtain ⟨⟨ha1, ha2⟩, ⟨hb1, hb2⟩, ⟨hc1, hc2⟩⟩ := hf r hr
    simp only [triRow, Nat.mod_eq_of_lt (show r.1 < 2 ^ 64 by omega),
      Nat.mod_eq_of_lt (show r.2.1 < 2 ^ 64 by omega),
      Nat.mod_eq_of_lt (show r.2.2.1 < 2 ^ 64 by omega)]
    rw [sizeSub1_eq ha1 (by omega), sizeSub1_eq hb1 (by omega), sizeSub1_eq hc1 (by omega)]
  have hks : ks.map tetRow =
      ks.map fun r => [r.1 - 1, r.2.1 - 1, r.2.2.1 - 1, r.2.2.2.1 - 1] := by
    apply List.map_congr_left
    intro r hr
    obtain ⟨⟨ha1, ha2⟩, ⟨hb1, hb2⟩, ⟨hc1, hc2⟩, ⟨hd1, hd2⟩⟩ := hk r hr
    simp only [tetRow, Nat.mod_eq_of_lt (show r.1 < 2 ^ 64 by omega),
      Nat.mod_eq_of_lt (show r.2.1 < 2 ^ 64 by omega),
      Nat.mod_eq_of_lt (show r.2.2.1 < 2 ^ 64 by omega),
      Nat.mod_eq_of_lt (show r.2.2.2.1 < 2 ^ 64 by omega)]
    rw [sizeSub1_eq ha1 (by omega), sizeSub1_eq hb1 (by omega),
      sizeSub1_eq hc1 (by omega), sizeSub1_eq hd1 (by omega)]
  rw [hfs, hks]

/-- Witness for C2 at a concrete file: one triangle (1,2,3) and one
tetrahedron (1,2,3,4), no vertices. -/
theorem readMESH_index_rebase_witness :
    parseMESH (renderMesh0 [] [(1, 2, 3, 0)] [(1, 2, 3, 4, 0)]) =
      .ok (([] : List (Int × Int × Int × Nat)).map vertRow)
        ([((1 : Nat), (2 : Nat), (3 : Nat), (4 : Nat), (0 : Nat))].map fun r =>
          [r.1 - 1, r.2.1 - 1, r.2.2.1 - 1, r.2.2.2.1 - 1])
        ([((1 : Nat), (2 : Nat), (3 : Nat), (0 : Nat))].map fun r =>
          [r.1 - 1, r.2.1 - 1, r.2.2.1 - 1]) :=
  readMESH_index_rebase [] [(1, 2, 3, 0)] [(1, 2, 3, 4, 0)]
    (by decide) (by decide) (by decide) (by decide) (by decide)

/-- C4 counterexample: the claim states that inserting blank or `#`-comment
lines at any position between the mandated tokens — including between a
count and its records — never changes the parse result.  On the code,
comment lines are only skipped by the line-based loops that run before the
section keywords; counts and records are read with `fscanf`, which skips
whitespace but not comment lines.  Inserting the single comment line `#c`
between the Triangles count and its record turns a successful parse into a
failure (and the failing branch is the one that also skips `fclose`). -/
theorem readMESH_comment_between_count_and_records :
    parseMESH (chars "MeshVersionFormatted 1\nDimension 3\nVertices\n0\nTriangles\n1\n1 2 3 0\nTetrahedra\n0\n") =
      .ok [] [] [[0, 1, 2]] ∧
    parseMESH (chars "MeshVersionFormatted 1\nDimension 3\nVertices\n0\nTriangles\n1\n#c\n1 2 3 0\nTetrahedra\n0\n") =
      .fail .expectingTriangleIndices false := ⟨by decide, by decide⟩

/-- C4 as amended: inserting extra blank or `#`-comment lines at the points
where the parser runs its comment-eating loop (before each of the five
keyword lines), and extra whitespace runs (blank lines included) before any
record, does not change the parse result. -/
theorem readMESH_comment_insertion_invariance (g1 g2 g3 g4 g5 : List Char)
    (vs : List (List Char × (Int × Int × Int × Nat)))
    (fs : List (List Char × (Nat × Nat × Nat × Nat)))
    (ks : List (List Char × (Nat × Nat × Nat × Nat × Nat)))
    (hb1 : CommentBlock g1) (hb2 : CommentBlock g2) (hb3 : CommentBlock g3)
    (hb4 : CommentBlock g4) (hb5 : CommentBlock g5)
    (hwv : ∀ p ∈ vs, WsRun p.1) (hwf : ∀ p ∈ fs, WsRun p.1)
    (hwk : ∀ p ∈ ks, WsRun p.1)
    (hlv : vs.length < 2 ^ 63) (hlf : fs.length < 2 ^ 63) (hlk : ks.length < 2 ^ 63) :
    parseMESH (renderMeshG g1 g2 g3 g4 g5 vs fs ks) =
      parseMESH (renderMesh0 (vs.map Prod.snd) (fs.map Prod.snd) (ks.map Prod.snd)) := by
  rw [parseMESH_renderMeshG g1 g2 g3 g4 g5 vs fs ks hb1 hb2 hb3 hb4 hb5 hwv hwf hwk
    hlv hlf hlk]
  rw [renderMesh0_parse _ _ _ (by simpa using hlv) (by simpa using hlf)
    (by simpa using hlk)]
  simp [List.map_map, Function.comp]

/-- Witness for C4 as amended: a comment line before the first keyword and a
blank line before a vertex record leave the result unchanged. -/
theorem readMESH_comment_insertion_invariance_witness :
    parseMESH (renderMeshG (chars "#g\n") [] [] [] [] [(chars "\n", (0, 0, 0, 0))] [] []) =
      parseMESH (renderMesh0 ([(chars "\n", ((0 : Int), (0 : Int), (0 : Int), (0 : Nat)))].map Prod.snd)
        (([] : List (List Char × (Nat × Nat × Nat × Nat))).map Prod.snd)
        (([] : List (List Char × (Nat × Nat × Nat × Nat × Nat))).map Prod.snd)) :=
  readMESH_comment_insertion_invariance (chars "#g\n") [] [] [] []
    [(chars "\n", (0, 0, 0, 0))] [] []
    ⟨[chars "#g\n"], by decide, by decide⟩
    commentBlock_nil commentBlock_nil commentBlock_nil commentBlock_nil
    (by
      intro p hp
      simp only [List.mem_singleton] at hp
      subst hp
      intro c hc
      simp only [chars] at hc
      have hcn : c = '\n' := List.mem_singleton.mp hc
      subst hcn
      decide)
    (fun p hp => absurd hp (List.not_mem_nil p))
    (fun p hp => absurd hp (List.not_mem_nil p))
    (by decide) (by decide) (by decide)

theorem eatComments_chars_line (a : List Char) {l : List Char} (r : List Char)
    (hl : l = a ++ ['\n']) (hnl : '\n' ∉ a) (hlen : a.length < 2047) (hne : a ≠ [])
    (hhd : a.head? ≠ some '#') (buf : List Char) :
    eatComments buf (l ++ r) = some (l, r) := by
  subst hl
  rw [List.append_assoc, List.singleton_append]
  exact eatComments_line buf r hnl hlen hne hhd

theorem list_to_matrix_none_of_bad_row {α : Type} (w : Nat) (rows : List (List α))
    (r : List α) (hr : r ∈ rows) (hne : r.length ≠ w) :
    list_to_matrix w rows = none := by
  unfold list_to_matrix
  have hc : ¬(rows.all (fun x => x.length == w) = true) := by
    rw [List.all_eq_true]
    intro hall
    exact hne (by simpa using hall r hr)
  rw [if_neg hc]

theorem list_to_matrix_of_widths {α : Type} {w : Nat} {rows : List (List α)}
    (h : ∀ r ∈ rows, r.length = w) : list_to_matrix w rows = some rows := by
  unfold list_to_matrix
  rw [if_pos]
  rw [List.all_eq_true]
  intro r hr
  simp [h r hr]

/-- C6: if any row of the vertex, tetrahedron, or face collection does not
have its expected fixed width (3 for vertices and faces, 4 for tetrahedra),
the rectangular adapter fails as a whole: it returns `none`, hence no matrix
for any of the three outputs — in particular a collection that converted
before another collection's failure is not part of any returned value.
(`list_to_matrix` is modelled from the spec; see its doc comment.) -/
theorem toRectangular_irregular_shape (V : List (List Rat)) (T F : List (List Nat))
    (h : (∃ r ∈ V, r.length ≠ 3) ∨ (∃ r ∈ T, r.length ≠ 4) ∨ (∃ r ∈ F, r.length ≠ 3)) :
    toRectangular V T F = none := by
  rcases h with ⟨r, hr, hne⟩ | ⟨r, hr, hne⟩ | ⟨r, hr, hne⟩
  · simp [toRectangular, list_to_matrix_none_of_bad_row 3 V r hr hne]
  · rcases hV : list_to_matrix 3 V with _ | Vm
    · simp [toRectangular, hV]
    · simp [toRectangular, hV, list_to_matrix_none_of_bad_row 4 T r hr hne]
  · rcases hV : list_to_matrix 3 V with _ | Vm
    · simp [toRectangular, hV]
    · rcases hT : list_to_matrix 4 T with _ | Tm
      · simp [toRectangular, hV, hT]
      · simp [toRectangular, hV, hT, list_to_matrix_none_of_bad_row 3 F r hr hne]

/-- Witness for C6: a vertex collection with one empty row. -/
theorem toRectangular_irregular_shape_witness :
    toRectangular [[]] [] [] = none :=
  toRectangular_irregular_shape [[]] [] [] (Or.inl (by decide))

theorem versionStage_inl_ne_ok {buf s : List Char} {r : ParseResult}
    (h : versionStage buf s = .inl r) (V : List (List Rat)) (T F : List (List Nat)) :
    r ≠ .ok V T F := by
  unfold versionStage at h
  rcases he : eatComments buf s with _ | ⟨line, s1⟩ <;> simp only [he] at h
  · simp only [Sum.inl.injEq] at h
    subst h
    simp
  · rcases ht : firstToken line with _ | t <;> simp only [ht] at h
    · simp only [Sum.inl.injEq] at h
      subst h
      simp
    · by_cases hkw : t = chars "MeshVersionFormatted"
      · rw [if_pos hkw] at h
        by_cases hval : (keywordValue line s1).1 = 1
        · rw [if_pos hval] at h
          simp at h
        · rw [if_neg hval] at h
          simp only [Sum.inl.injEq] at h
          subst h
          simp
      · rw [if_neg hkw] at h
        simp only [Sum.inl.injEq] at h
        subst h
        simp

theorem dimensionStage_inl_ne_ok {buf s : List Char} {r : ParseResult}
    (h : dimensionStage buf s = .inl r) (V : List (List Rat)) (T F : List (List Nat)) :
    r ≠ .ok V T F := by
  unfold dimensionStage at h
  rcases he : eatComments buf s with _ | ⟨line, s1⟩ <;> simp only [he] at h
  · simp only [Sum.inl.injEq] at h
    subst h
    simp
  · rcases ht : firstToken line with _ | t <;> simp only [ht] at h
    · simp only [Sum.inl.injEq] at h
      subst h
      simp
    · by_cases hkw : t = chars "Dimension"
      · rw [if_pos hkw] at h
        by_cases hval : (keywordValue line s1).1 = 3
        · rw [if_pos hval] at h
          simp at h
        · rw [if_neg hval] at h
          simp only [Sum.inl.injEq] at h
          subst h
          simp
      · rw [if_neg hkw] at h
        simp only [Sum.inl.injEq] at h
        subst h
        simp

theorem verticesHeaderStage_inl_ne_ok {buf s : List Char} {r : ParseResult}
    (h : verticesHeaderStage buf s = .inl r) (V : List (List Rat)) (T F : List (List Nat)) :
    r ≠ .ok V T F := by
  unfold verticesHeaderStage at h
  rcases he : eatComments buf s with _ | ⟨line, s1⟩ <;> simp only [he] at h
  · simp only [Sum.inl.injEq] at h
    subst h
    simp
  · rcases ht : firstToken line with _ | t <;> simp only [ht] at h
    · simp only [Sum.inl.injEq] at h
      subst h
      simp
    · by_cases hkw : t = chars "Vertices"
      · rw [if_pos hkw] at h
        rcases hc : scanIntCore s1 with _ | ⟨v, s2⟩ <;> simp only [hc] at h
        · simp only [Sum.inl.injEq] at h
          subst h
          simp
        · simp at h
      · rw [if_neg hkw] at h
        simp only [Sum.inl.injEq] at h
        subst h
        simp

theorem trianglesHeaderStage_inl_ne_ok {buf s : List Char} {r : ParseResult}
    (h : trianglesHeaderStage buf s = .inl r) (V : List (List Rat)) (T F : List (List Nat)) :
    r ≠ .ok V T F := by
  unfold trianglesHeaderStage at h
  rcases he : eatComments buf s with _ | ⟨line, s1⟩ <;> simp only [he] at h
  · simp only [Sum.inl.injEq] at h
    subst h
    simp
  · rcases ht : firstToken line with _ | t <;> simp only [ht] at h
    · simp only [Sum.inl.injEq] at h
      subst h
      simp
    · by_cases hkw : t = chars "Triangles"
      · rw [if_pos hkw] at h
        rcases hc : scanIntCore s1 with _ | ⟨v, s2⟩ <;> simp only [hc] at h
        · simp only [Sum.inl.injEq] at h
          subst h
          simp
        · simp at h
      · rw [if_neg hkw] at h
        simp only [Sum.inl.injEq] at h
        subst h
        simp

theorem tetrahedraHeaderStage_inl_ne_ok {buf s : List Char} {r : ParseResult}
    (h : tetrahedraHeaderStage buf s = .inl r) (V : List (List Rat)) (T F : List (List Nat)) :
    r ≠ .ok V T F := by
  unfold tetrahedraHeaderStage at h
  rcases he : eatComments buf s with _ | ⟨line, s1⟩ <;> simp only [he] at h
  · simp only [Sum.inl.injEq] at h
    subst h
    simp
  · rcases ht : firstToken line with _ | t <;> simp only [ht] at h
    · simp only [Sum.inl.injEq] at h
      subst h
      simp
    · by_cases hkw : t = chars "Tetrahedra"
      · rw [if_pos hkw] at h
        rcases hc : scanIntCore s1 with _ | ⟨v, s2⟩ <;> simp only [hc] at h
        · simp only [Sum.inl.injEq] at h
          subst h
          simp
        · simp at h
      · rw [if_neg hkw] at h
        simp only [Sum.inl.injEq] at h
        subst h
        simp

theorem readVertexLoop_inl : ∀ (n : Nat) (s : List Char) (acc : List (List Rat))
    {r : ParseResult}, readVertexLoop n s acc = .inl r →
    r = .fail .expectingVertexPosition true := by
  intro n
  induction n with
  | zero => intro s acc r h; simp [readVertexLoop] at h
  | succ k ih =>
    intro s acc r h
    simp only [readVertexLoop] at h
    rcases hs : scanVertex s with _ | p <;> simp only [hs] at h
    · simp only [Sum.inl.injEq] at h
      exact h.symm
    · exact ih _ _ h

theorem readTriangleLoop_inl : ∀ (n : Nat) (s : List Char) (acc : List (List Nat))
    {r : ParseResult}, readTriangleLoop n s acc = .inl r →
    r = .fail .expectingTriangleIndices false := by
  intro n
  induction n with
  | zero => intro s acc r h; simp [readTriangleLoop] at h
  | succ k ih =>
    intro s acc r h
    simp only [readTriangleLoop] at h
    rcases hs : scanTriangle s with _ | p <;> simp only [hs] at h
    · simp only [Sum.inl.injEq] at h
      exact h.symm
    · exact ih _ _ h

theorem readTetLoop_inl : ∀ (n : Nat) (s : List Char) (acc : List (List Nat))
    {r : ParseResult}, readTetLoop n s acc = .inl r →
    r = .fail .expectingTetIndices true := by
  intro n
  induction n with
  | zero => intro s acc r h; simp [readTetLoop] at h
  | succ k ih =>
    intro s acc r h
    simp only [readTetLoop] at h
    rcases hs : scanTet s with _ | p <;> simp only [hs] at h
    · simp only [Sum.inl.injEq] at h
      exact h.symm
    · exact ih _ _ h

/-- C10: whenever the generic parse succeeds, its outputs are rectangular by
construction — every vertex row and face row has exactly 3 entries, every
tetrahedron row exactly 4 — the number of rows of each collection equals the
count declared in the file, and consequently the rectangular adapter cannot
take its irregular-shape failure branch on parser-produced documents: it
returns the three collections unchanged. -/
theorem readMESH_success_rectangular (s : List Char) (V : List (List Rat))
    (T F : List (List Nat)) (h : parseMESH s = .ok V T F) :
    (∀ r ∈ V, r.length = 3) ∧ (∀ r ∈ T, r.length = 4) ∧ (∀ r ∈ F, r.length = 3) ∧
    (∃ nv nt nk, declaredCounts s = some (nv, nt, nk) ∧
      V.length = nv ∧ F.length = nt ∧ T.length = nk) ∧
    toRectangular V T F = some (V, T, F) := by
  unfold parseMESH at h
  rcases h1 : versionStage [] s with r1 | ⟨l1, s1⟩ <;> simp only [h1] at h
  · exact absurd h (versionStage_inl_ne_ok h1 V T F)
  rcases h2 : dimensionStage l1 s1 with r2 | ⟨l2, s2⟩ <;> simp only [h2] at h
  · exact absurd h (dimensionStage_inl_ne_ok h2 V T F)
  rcases h3 : verticesHeaderStage l2 s2 with r3 | ⟨l3, nv, s3⟩ <;> simp only [h3] at h
  · exact absurd h (verticesHeaderStage_inl_ne_ok h3 V T F)
  rcases h4 : readVertexLoop nv s3 [] with r4 | ⟨V0, s4⟩ <;> simp only [h4] at h
  · rw [readVertexLoop_inl nv s3 [] h4] at h
    simp at h
  rcases h5 : trianglesHeaderStage l3 s4 with r5 | ⟨l4, nt, s5⟩ <;> simp only [h5] at h
  · exact absurd h (trianglesHeaderStage_inl_ne_ok h5 V T F)
  rcases h6 : readTriangleLoop nt s5 [] with r6 | ⟨F0, s6⟩ <;> simp only [h6] at h
  · rw [readTriangleLoop_inl nt s5 [] h6] at h
    simp at h
  rcases h7 : tetrahedraHeaderStage l4 s6 with r7 | ⟨l5, nk, s7⟩ <;> simp only [h7] at h
  · exact absurd h (tetrahedraHeaderStage_inl_ne_ok h7 V T F)
  rcases h8 : readTetLoop nk s7 [] with r8 | ⟨T0, s8⟩ <;> simp only [h8] at h
  · rw [readTetLoop_inl nk s7 [] h8] at h
    simp at h
  simp only [ParseResult.ok.injEq] at h
  obtain ⟨rfl, rfl, rfl⟩ := h
  obtain ⟨hVlen, hVmem⟩ := readVertexLoop_shape nv s3 [] V0 s4 h4
  obtain ⟨hFlen, hFmem⟩ := readTriangleLoop_shape nt s5 [] F0 s6 h6
  obtain ⟨hTlen, hTmem⟩ := readTetLoop_shape nk s7 [] T0 s8 h8
  have hV3 : ∀ r ∈ V0, r.length = 3 :=
    fun r hr => (hVmem r hr).elim (fun hx => absurd hx (List.not_mem_nil r)) id
  have hT4 : ∀ r ∈ T0, r.length = 4 :=
    fun r hr => (hTmem r hr).elim (fun hx => absurd hx (List.not_mem_nil r)) id
  have hF3 : ∀ r ∈ F0, r.length = 3 :=
    fun r hr => (hFmem r hr).elim (fun hx => absurd hx (List.not_mem_nil r)) id
  refine ⟨hV3, hT4, hF3,
    ⟨nv, nt, nk, ?_, by simpa using hVlen, by simpa using hFlen, by simpa using hTlen⟩, ?_⟩
  · unfold declaredCounts
    simp only [h1, h2, h3, h4, h5, h6, h7, h8]
  · simp [toRectangular, list_to_matrix_of_widths hV3, list_to_matrix_of_widths hT4,
      list_to_matrix_of_widths hF3]

/-- Witness for C10 at a concrete successfully parsed file with empty
sections. -/
theorem readMESH_success_rectangular_witness :
    (∀ r ∈ ([] : List (List Rat)), r.length = 3) ∧
    (∀ r ∈ ([] : List (List Nat)), r.length = 4) ∧
    (∀ r ∈ ([] : List (List Nat)), r.length = 3) ∧
    (∃ nv nt nk, declaredCounts
      (chars "MeshVersionFormatted 1\nDimension 3\nVertices\n0\nTriangles\n0\nTetrahedra\n0\n") =
        some (nv, nt, nk) ∧
      ([] : List (List Rat)).length = nv ∧ ([] : List (List Nat)).length = nt ∧
      ([] : List (List Nat)).length = nk) ∧
    toRectangular [] [] [] = some ([], [], []) :=
  readMESH_success_rectangular _ [] [] [] (by decide)

theorem versionStage_std (buf X : List Char) :
    versionStage buf (chars "MeshVersionFormatted 1\n" ++ X) =
      .inr (chars "MeshVersionFormatted 1\n", X) := by
  apply versionStage_of
  exact eatComments_chars_line (chars "MeshVersionFormatted 1") _ (by decide) (by decide)
    (by decide) (by decide) (by decide) buf

theorem dropWhile_space_keyword {kw : List Char} (X : List Char) (hne : kw ≠ [])
    (hkw : ∀ c ∈ kw, isSpaceC c = false) :
    (kw ++ X).dropWhile isSpaceC = kw ++ X := by
  obtain ⟨c0, kw', rfl⟩ := List.exists_cons_of_ne_nil hne
  rw [List.cons_append, List.dropWhile_cons]
  simp [hkw c0 (List.mem_cons_self _ _)]

theorem firstToken_append_ws (kw X : List Char) (hne : kw ≠ [])
    (hkw : ∀ c ∈ kw, isSpaceC c = false)
    (hX : ∀ c, X.head? = some c → isSpaceC c = true) :
    firstToken (kw ++ X) = some kw := by
  have htake : (kw ++ X).takeWhile (fun c => !isSpaceC c) = kw :=
    takeWhile_append_blocked (fun c hc => by simp [hkw c hc])
      (fun c hc => by simp [hX c hc])
  unfold firstToken
  rw [dropWhile_space_keyword X hne hkw, htake, if_neg hne]

theorem sameLineInt_sameline (kw Y : List Char) (v : Int) (hne : kw ≠ [])
    (hkw : ∀ c ∈ kw, isSpaceC c = false)
    (hY : ∀ c, Y.head? = some c → Char.isDigit c = false) :
    sameLineInt (kw ++ (' ' :: (renderInt v ++ Y))) = some v := by
  have htok := firstToken_append_ws kw (' ' :: (renderInt v ++ Y)) hne hkw
    (by intro c hc; simp only [List.head?_cons, Option.some.injEq] at hc; subst hc; rfl)
  have hscan : scanIntCore (' ' :: (renderInt v ++ Y)) = some (v, Y) :=
    scanIntCore_of Y v
      (by rw [dropWhile_space_cons_space]; exact dropWhile_space_renderInt v Y) hY
  simp only [sameLineInt, htok, dropWhile_space_keyword _ hne hkw, List.drop_left, hscan]

theorem sameLineInt_kw_newline (kw : List Char) (hne : kw ≠ [])
    (hkw : ∀ c ∈ kw, isSpaceC c = false) :
    sameLineInt (kw ++ ['\n']) = none := by
  have htok := firstToken_append_ws kw ['\n'] hne hkw
    (by intro c hc; simp only [List.head?_cons, Option.some.injEq] at hc; subst hc; rfl)
  simp only [sameLineInt, htok, dropWhile_space_keyword _ hne hkw, List.drop_left,
    show scanIntCore ['\n'] = none from by decide]

theorem versionStage_sameline (buf : List Char) (v : Int) (rest : List Char)
    (hv : v.natAbs < 2 ^ 31) :
    versionStage buf (chars "MeshVersionFormatted " ++ (renderInt v ++ ('\n' :: rest))) =
      if v = 1 then .inr ((chars "MeshVersionFormatted " ++ renderInt v) ++ ['\n'], rest)
      else .inl (.fail (.badVersion v) true) := by
  have hlen : (renderInt v).length ≤ 11 := by
    have h10 : v.natAbs < 10 ^ 10 := lt_trans hv (by norm_num)
    exact renderInt_length h10 (by norm_num)
  have hnl : '\n' ∉ chars "MeshVersionFormatted " ++ renderInt v := by
    intro hm
    rcases List.mem_append.mp hm with hm | hm
    · exact absurd hm (by decide)
    · exact renderInt_no_newline v hm
  have he : eatComments buf (chars "MeshVersionFormatted " ++ (renderInt v ++ ('\n' :: rest))) =
      some ((chars "MeshVersionFormatted " ++ renderInt v) ++ ['\n'], rest) := by
    rw [show chars "MeshVersionFormatted " ++ (renderInt v ++ ('\n' :: rest)) =
      (chars "MeshVersionFormatted " ++ renderInt v) ++ ('\n' :: rest) from by
        simp [List.append_assoc]]
    refine eatComments_line buf rest hnl ?_ ?_ ?_
    · have h21 : (chars "MeshVersionFormatted ").length = 21 := by decide
      simp only [List.length_append, h21]
      omega
    · intro hx
      have := congrArg List.length hx
      have h21 : (chars "MeshVersionFormatted ").length = 21 := by decide
      simp only [List.length_append, h21, List.length_nil] at this
      omega
    · rw [show chars "MeshVersionFormatted " ++ renderInt v =
        'M' :: (chars "eshVersionFormatted " ++ renderInt v) from rfl]
      simp
  have hline : (chars "MeshVersionFormatted " ++ renderInt v) ++ ['\n'] =
      chars "MeshVersionFormatted" ++ (' ' :: (renderInt v ++ ['\n'])) := by
    rw [show chars "MeshVersionFormatted " = chars "MeshVersionFormatted" ++ [' '] from rfl]
    simp [List.append_assoc]
  have htok : firstToken ((chars "MeshVersionFormatted " ++ renderInt v) ++ ['\n']) =
      some (chars "MeshVersionFormatted") := by
    rw [hline]
    exact firstToken_append_ws _ _ (by decide) (by decide)
      (by intro c hc; simp only [List.head?_cons, Option.some.injEq] at hc; subst hc; rfl)
  have hsl : sameLineInt ((chars "MeshVersionFormatted " ++ renderInt v) ++ ['\n']) =
      some v := by
    rw [hline]
    exact sameLineInt_sameline (chars "MeshVersionFormatted") ['\n'] v (by decide) (by decide)
      (by intro c hc; simp only [List.head?_cons, Option.some.injEq] at hc; subst hc; rfl)
  simp only [versionStage, he, htok, if_true]
  simp only [keywordValue, hsl]

theorem versionStage_nextline (buf : List Char) (v : Int) (rest : List Char) :
    versionStage buf (chars "MeshVersionFormatted\n" ++ (renderInt v ++ ('\n' :: rest))) =
      if v = 1 then .inr (chars "MeshVersionFormatted\n", '\n' :: rest)
      else .inl (.fail (.badVersion v) true) := by
  have he : eatComments buf (chars "MeshVersionFormatted\n" ++ (renderInt v ++ ('\n' :: rest))) =
      some (chars "MeshVersionFormatted\n", renderInt v ++ ('\n' :: rest)) :=
    eatComments_chars_line (chars "MeshVersionFormatted") _ (by decide) (by decide)
      (by decide) (by decide) (by decide) buf
  have htok : firstToken (chars "MeshVersionFormatted\n") =
      some (chars "MeshVersionFormatted") := by decide
  have hsl : sameLineInt (chars "MeshVersionFormatted\n") = none := by decide
  have hscan : scanIntCore (renderInt v ++ ('\n' :: rest)) = some (v, '\n' :: rest) :=
    scanIntCore_of _ v (dropWhile_space_renderInt v _)
      (by intro c hc; simp only [List.head?_cons, Option.some.injEq] at hc; subst hc; rfl)
  simp only [versionStage, he, htok, if_true]
  simp only [keywordValue, hsl, hscan]

theorem dimensionStage_sameline (buf : List Char) (v : Int) (rest : List Char)
    (hv : v.natAbs < 2 ^ 31) :
    dimensionStage buf (chars "Dimension " ++ (renderInt v ++ ('\n' :: rest))) =
      if v = 3 then .inr ((chars "Dimension " ++ renderInt v) ++ ['\n'], rest)
      else .inl (.fail (.badDimension v) true) := by
  have hlen : (renderInt v).length ≤ 11 := by
    have h10 : v.natAbs < 10 ^ 10 := lt_trans hv (by norm_num)
    exact renderInt_length h10 (by norm_num)
  have hnl : '\n' ∉ chars "Dimension " ++ renderInt v := by
    intro hm
    rcases List.mem_append.mp hm with hm | hm
    · exact absurd hm (by decide)
    · exact renderInt_no_newline v hm
  have he : eatComments buf (chars "Dimension " ++ (renderInt v ++ ('\n' :: rest))) =
      some ((chars "Dimension " ++ renderInt v) ++ ['\n'], rest) := by
    rw [show chars "Dimension " ++ (renderInt v ++ ('\n' :: rest)) =
      (chars "Dimension " ++ renderInt v) ++ ('\n' :: rest) from by
        simp [List.append_assoc]]
    refine eatComments_line buf rest hnl ?_ ?_ ?_
    · have h10 : (chars "Dimension ").length = 10 := by decide
      simp only [List.length_append, h10]
      omega
    · intro hx
      have := congrArg List.length hx
      have h10 : (chars "Dimension ").length = 10 := by decide
      simp only [List.length_append, h10, List.length_nil] at this
      omega
    · rw [show chars "Dimension " ++ renderInt v =
        'D' :: (chars "imension " ++ renderInt v) from rfl]
      simp
  have hline : (chars "Dimension " ++ renderInt v) ++ ['\n'] =
      chars "Dimension" ++ (' ' :: (renderInt v ++ ['\n'])) := by
    rw [show chars "Dimension " = chars "Dimension" ++ [' '] from rfl]
    simp [List.append_assoc]
  have htok : firstToken ((chars "Dimension " ++ renderInt v) ++ ['\n']) =
      some (chars "Dimension") := by
    rw [hline]
    exact firstToken_append_ws _ _ (by decide) (by decide)
      (by intro c hc; simp only [List.head?_cons, Option.some.injEq] at hc; subst hc; rfl)
  have hsl : sameLineInt ((chars "Dimension " ++ renderInt v) ++ ['\n']) = some v := by
    rw [hline]
    exact sameLineInt_sameline (chars "Dimension") ['\n'] v (by decide) (by decide)
      (by intro c hc; simp only [List.head?_cons, Option.some.injEq] at hc; subst hc; rfl)
  simp only [dimensionStage, he, htok, if_true]
  simp only [keywordValue, hsl]

theorem dimensionStage_nextline (buf : List Char) (v : Int) (rest : List Char) :
    dimensionStage buf (chars "Dimension\n" ++ (renderInt v ++ ('\n' :: rest))) =
      if v = 3 then .inr (chars "Dimension\n", '\n' :: rest)
      else .inl (.fail (.badDimension v) true) := by
  have he : eatComments buf (chars "Dimension\n" ++ (renderInt v ++ ('\n' :: rest))) =
      some (chars "Dimension\n", renderInt v ++ ('\n' :: rest)) :=
    eatComments_chars_line (chars "Dimension") _ (by decide) (by decide)
      (by decide) (by decide) (by decide) buf
  have htok : firstToken (chars "Dimension\n") = some (chars "Dimension") := by decide
  have hsl : sameLineInt (chars "Dimension\n") = none := by decide
  have hscan : scanIntCore (renderInt v ++ ('\n' :: rest)) = some (v, '\n' :: rest) :=
    scanIntCore_of _ v (dropWhile_space_renderInt v _)
      (by intro c hc; simp only [List.head?_cons, Option.some.injEq] at hc; subst hc; rfl)
  simp only [dimensionStage, he, htok, if_true]
  simp only [keywordValue, hsl, hscan]

theorem dimensionStage_entry_blank {rest : List Char} (b1 b2 : List Char)
    (hr : rest ≠ []) :
    dimensionStage b1 ('\n' :: rest) = dimensionStage b2 rest := by
  unfold dimensionStage
  rw [eatComments_blank, eatComments_buf_irrel ['\n'] b2 hr]

theorem verticesHeaderStage_entry_blank {rest : List Char} (b1 b2 : List Char)
    (hr : rest ≠ []) :
    verticesHeaderStage b1 ('\n' :: rest) = verticesHeaderStage b2 rest := by
  unfold verticesHeaderStage
  rw [eatComments_blank, eatComments_buf_irrel ['\n'] b2 hr]

/-- C7: for both `MeshVersionFormatted` and `Dimension`, the parser tries
same-line extraction of the associated value first and falls back to the
next whitespace-delimited token of the stream if that fails: a value on the
keyword line and the same value alone on the following line parse
identically (for `int`-representable values), whenever the input continues
past the value's newline (`rest ≠ []`; if the file ends right there the two
layouts genuinely differ, because the next comment-eating loop hits
end-of-file with different stale `line` buffers: the keyword line in one
layout, the blank value line in the other, the latter spinning forever).
The value must equal 1 (version) resp. 3 (dimension) or the parse fails
with the corresponding error carrying the value read. -/
theorem readMESH_keyword_value_extraction (v : Int) (rest : List Char)
    (hv : v.natAbs < 2 ^ 31) (hrest : rest ≠ []) :
    (parseMESH (chars "MeshVersionFormatted " ++ (renderInt v ++ ('\n' :: rest))) =
      parseMESH (chars "MeshVersionFormatted\n" ++ (renderInt v ++ ('\n' :: rest)))) ∧
    (v ≠ 1 → parseMESH (chars "MeshVersionFormatted " ++ (renderInt v ++ ('\n' :: rest))) =
      .fail (.badVersion v) true) ∧
    (parseMESH (chars "MeshVersionFormatted 1\n" ++
        (chars "Dimension " ++ (renderInt v ++ ('\n' :: rest)))) =
      parseMESH (chars "MeshVersionFormatted 1\n" ++
        (chars "Dimension\n" ++ (renderInt v ++ ('\n' :: rest))))) ∧
    (v ≠ 3 → parseMESH (chars "MeshVersionFormatted 1\n" ++
        (chars "Dimension " ++ (renderInt v ++ ('\n' :: rest)))) =
      .fail (.badDimension v) true) := by
  have hA := versionStage_sameline [] v rest hv
  have hB := versionStage_nextline [] v rest
  have hC := dimensionStage_sameline (chars "MeshVersionFormatted 1\n") v rest hv
  have hD := dimensionStage_nextline (chars "MeshVersionFormatted 1\n") v rest
  refine ⟨?_, ?_, ?_, ?_⟩
  · by_cases h1 : v = 1
    · simp only [parseMESH, hA, hB, if_pos h1]
      rw [dimensionStage_entry_blank (chars "MeshVersionFormatted\n")
        ((chars "MeshVersionFormatted " ++ renderInt v) ++ ['\n']) hrest]
    · simp only [parseMESH, hA, hB, if_neg h1]
  · intro h1
    simp only [parseMESH, hA, if_neg h1]
  · by_cases h3 : v = 3
    · simp only [parseMESH, versionStage_std, hC, hD, if_pos h3]
      rw [verticesHeaderStage_entry_blank (chars "Dimension\n")
        ((chars "Dimension " ++ renderInt v) ++ ['\n']) hrest]
    · simp only [parseMESH, versionStage_std, hC, hD, if_neg h3]
  · intro h3
    simp only [parseMESH, versionStage_std, hC, if_neg h3]

/-- Witness for C7 at the value 2 (rejected by both checks) and a remainder
consisting of one blank line. -/
theorem readMESH_keyword_value_extraction_witness :
    (parseMESH (chars "MeshVersionFormatted " ++ (renderInt 2 ++ ('\n' :: ['\n']))) =
      parseMESH (chars "MeshVersionFormatted\n" ++ (renderInt 2 ++ ('\n' :: ['\n'])))) ∧
    ((2 : Int) ≠ 1 → parseMESH (chars "MeshVersionFormatted " ++ (renderInt 2 ++ ('\n' :: ['\n']))) =
      .fail (.badVersion 2) true) ∧
    (parseMESH (chars "MeshVersionFormatted 1\n" ++
        (chars "Dimension " ++ (renderInt 2 ++ ('\n' :: ['\n'])))) =
      parseMESH (chars "MeshVersionFormatted 1\n" ++
        (chars "Dimension\n" ++ (renderInt 2 ++ ('\n' :: ['\n']))))) ∧
    ((2 : Int) ≠ 3 → parseMESH (chars "MeshVersionFormatted 1\n" ++
        (chars "Dimension " ++ (renderInt 2 ++ ('\n' :: ['\n'])))) =
      .fail (.badDimension 2) true) :=
  readMESH_keyword_value_extraction 2 ['\n'] (by decide) (by decide)
